import Mathlib

/-!
Shallow embedding of the conversation-to-document export pipeline of the
chatgpt-exporter repository (src/exporter/markdown.ts, image-handler.ts,
image-strategies.ts, image-types.ts together with its image-utils half).

Strings are modelled by Lean `String`; scanners work on `List Char`.
JavaScript optional values (`undefined` / absent keys) are modelled by
`Option`; JavaScript "truthy" tests on strings are `s ≠ ""` on `some s`.
Browser / library facilities that are not part of the repository
(network fetch, Date, the mdast round trip of src/utils/markdown) are
threaded as explicit parameters.
-/

/-- JavaScript `\s` whitespace class (the code points relevant here). -/
def jsIsWs (c : Char) : Bool :=
  c = ' ' || c = '\t' || c = '\n' || c = '\x0d' || c = '\x0b' || c = '\x0c' ||
  c = (Char.ofNat 0xa0) || c = (Char.ofNat 0x2028) || c = (Char.ofNat 0x2029) ||
  c = (Char.ofNat 0xfeff)

/-- ASCII lower-casing of one character, as `String.prototype.toLowerCase`
acts on the inputs occurring in this code base. -/
def jsLowerChar (c : Char) : Char :=
  if 'A' ≤ c ∧ c ≤ 'Z' then Char.ofNat (c.toNat + 32) else c

def jsToLower (s : String) : String :=
  String.mk (s.data.map jsLowerChar)

/-- Substring test, used both for `/```/.test(x)` and for stating that a
rendered document contains a marker. -/
def strContains (s pat : String) : Prop :=
  pat.data <:+: s.data

instance (s pat : String) : Decidable (strContains s pat) :=
  inferInstanceAs (Decidable (pat.data <:+: s.data))

def strContainsB (s pat : String) : Bool :=
  decide (strContains s pat)

/-- JavaScript `String.prototype.split` with a one-character separator. -/
def splitOnChar (sep : Char) : List Char → List (List Char)
  | [] => [[]]
  | c :: rest =>
    match splitOnChar sep rest with
    | [] => [[]]
    | h :: t => if c = sep then [] :: h :: t else (c :: h) :: t

def jsSplit (sep : Char) (s : String) : List String :=
  (splitOnChar sep s.data).map String.mk

/-- JavaScript `s.split(sep)[1]` followed by template-string coercion:
an absent element prints as "undefined". -/
def jsSplitIndex1 (sep : Char) (s : String) : String :=
  match jsSplit sep s with
  | _ :: y :: _ => y
  | _ => "undefined"

/-- JavaScript `s.split(sep).pop()`; `split` never returns an empty array. -/
def jsSplitLast (sep : Char) (s : String) : String :=
  (jsSplit sep s).getLastD ""

/-- `String.prototype.padStart(3, '0')` for the decimal print of a Nat. -/
def padStart3 (s : String) : String :=
  if s.length ≥ 3 then s else String.mk (List.replicate (3 - s.length) '0') ++ s

def isDigitChar (c : Char) : Bool :=
  '0' ≤ c ∧ c ≤ '9'

/-- Numeric value of a digit string (the `+s` coercion on the all-digit
captures of the regexes used here). -/
def digitsToNat (l : List Char) : Nat :=
  l.foldl (fun acc c => acc * 10 + (c.toNat - '0'.toNat)) 0

/-- The base64 alphabet used by `btoa`. -/
def b64Alphabet : List Char :=
  "ABCDEFGHIJKLMNOPQRSTUVWXYZabcdefghijklmnopqrstuvwxyz0123456789+/".data

def b64Char (n : Nat) : Char :=
  b64Alphabet.getD n 'A'

/-- `btoa` on a latin-1 string: groups of three bytes become four
base64 characters, with `=` padding. -/
def btoaGroups : List Nat → List Char
  | [] => []
  | [a] =>
    [b64Char (a / 4), b64Char (a % 4 * 16), '=', '=']
  | [a, b] =>
    [b64Char (a / 4), b64Char (a % 4 * 16 + b / 16), b64Char (b % 16 * 4), '=']
  | a :: b :: c :: rest =>
    b64Char (a / 4) :: b64Char (a % 4 * 16 + b / 16) ::
    b64Char (b % 16 * 4 + c / 64) :: b64Char (c % 64) :: btoaGroups rest

def btoa (s : String) : String :=
  String.mk (btoaGroups (s.data.map Char.toNat))

/-- Value of one base64 character for `atob`; `atob` inputs in this code
base are canvas data-URL payloads, which are always in the alphabet. -/
def b64Value (c : Char) : Nat :=
  ((b64Alphabet.indexOf c : Nat))

/-- `atob` decoded to a byte list (padding and trailing garbage dropped as
the browser does for well-formed groups). -/
def atobGroups : List Char → List Nat
  | a :: b :: '=' :: _ => [b64Value a * 4 + b64Value b / 16]
  | a :: b :: c :: '=' :: _ =>
    [b64Value a * 4 + b64Value b / 16, b64Value b % 16 * 16 + b64Value c / 4]
  | a :: b :: c :: d :: rest =>
    (b64Value a * 4 + b64Value b / 16) ::
    (b64Value b % 16 * 16 + b64Value c / 4) ::
    (b64Value c % 4 * 64 + b64Value d) :: atobGroups rest
  | _ => []

def atobBytes (s : String) : List Nat :=
  atobGroups s.data

-- ---------------------------------------------------------------------------
-- Data model (src/exporter/image-types.ts and the conversation structure
-- consumed by src/exporter/markdown.ts)
-- ---------------------------------------------------------------------------

/-- Message author (role plus optional tool name). -/
structure Author where
  role : String
  name : Option String
deriving DecidableEq

/-- One entry of `metadata.aggregate_result.messages`. -/
structure AggMsg where
  message_type : String
  image_url : Option String
deriving DecidableEq

/-- One element of `content.parts` of a `multimodal_text` message.
`imagePart none` models an `image_asset_pointer` object without the
`asset_pointer` key; `imagePart (some s)` models the key present with
value `s`. -/
inductive MultiPart where
  | textPart (s : String)
  | imagePart (assetPointer : Option String)
  | audioTranscription (text : String)
  | audioAssetPointer
  | realTimeUserAudioVideoAssetPointer
  | otherPart
deriving DecidableEq

/-- One citation of `metadata.citations`; only the fields read by
`transformFootNotes` are modelled. -/
structure Citation where
  citedMessageIdx : Option Nat
  title : Option String
deriving DecidableEq

/-- Message content, tagged by `content_type`. -/
inductive Content where
  | text (parts : Option (List String))
  | code (text : String)
  | executionOutput (text : String)
  | tetherQuote (title : Option String) (text : Option String)
  | tetherBrowsingCode
  | tetherBrowsingDisplay
  | multimodalText (parts : Option (List MultiPart))
  | other (contentType : String)
deriving DecidableEq

/-- The slice of per-message metadata read by the exporter. -/
structure MsgMetadata where
  aggregateMessages : Option (List AggMsg)
  citations : Option (List Citation)
  citeMetadataList : Option (List (String × String))
deriving DecidableEq

def MsgMetadata.empty : MsgMetadata := ⟨none, none, none⟩

structure Message where
  id : Option String
  author : Author
  content : Option Content
  metadata : MsgMetadata
  recipient : String
  createTime : Option Nat
deriving DecidableEq

structure ConversationNode where
  message : Option Message
deriving DecidableEq

structure Conversation where
  id : String
  title : String
  conversationNodes : List ConversationNode
deriving DecidableEq

/-- ImageContext of image-types.ts. -/
structure ImageContext where
  conversationId : String
  messageId : String
  imageIndex : Nat
  mimeType : String
  originalUrl : String
  contentType : String
  author : Option Author
  timestamp : Option Nat
deriving DecidableEq

structure ImageMetadata where
  originalUrl : String
  mimeType : String
  fileSize : Option Nat
  timestamp : Option Nat
  messageContext : Option (String × String)
deriving DecidableEq

structure ProcessedImage where
  id : String
  content : String
  originalData : Option String
  metadata : Option ImageMetadata
  fileName : Option String
deriving DecidableEq

/-- ExportFile; the browser `Blob` is modelled by its byte list. -/
structure ExportFile where
  path : String
  data : List Nat
  mimeType : String
deriving DecidableEq

structure ExportMetaImage where
  id : String
  originalUrl : String
  fileName : String
  mimeType : String
  size : Nat
  mcMessageId : Option String
  mcAuthor : String
  mcRole : String
deriving DecidableEq

structure ExportMetadata where
  version : String
  exportDate : String
  conversationTitle : String
  imageHandlingStrategy : String
  totalImages : Nat
  images : List ExportMetaImage
  imageQuality : Nat
  maxImageSize : Nat
  includeImageMetadata : Bool
deriving DecidableEq

inductive ImageHandlingStrategy where
  | embedBase64
  | textMarker
  | separateFiles
deriving DecidableEq

def ImageHandlingStrategy.name : ImageHandlingStrategy → String
  | .embedBase64 => "embed_base64"
  | .textMarker => "text_marker"
  | .separateFiles => "separate_files"

/-- Environment of a single export run: the browser facilities and user
settings the image pipeline reads.  `fetchB64 url = none` models a
rejected `getBase64FromImageUrl` (network or decode failure). -/
structure ExportEnv where
  fetchB64 : String → Option String
  now : Nat
  nowIso : String
  customMarker : Option String

-- ---------------------------------------------------------------------------
-- image-utils (the second half of src/exporter/image-types.ts)
-- ---------------------------------------------------------------------------

/-- Try to parse `data:([^;]+);` at the head of the list, returning the
capture. -/
def dataMimeAt (l : List Char) : Option (List Char) :=
  match l with
  | 'd' :: 'a' :: 't' :: 'a' :: ':' :: rest =>
    let cap := rest.takeWhile (fun c => c ≠ ';')
    if cap ≠ [] ∧ cap.length < rest.length then some cap else none
  | _ => none

/-- First match of `/data:([^;]+);/` anywhere in the string. -/
def findDataMime : List Char → Option (List Char)
  | [] => none
  | c :: rest =>
    match dataMimeAt (c :: rest) with
    | some cap => some cap
    | none => findDataMime rest

/-- `startsWith` on the character-list view (String.startsWith does not
reduce in the kernel). -/
def strStartsWith (s pre : String) : Bool :=
  s.data.take pre.data.length = pre.data

/-- getMimeType of image-utils. -/
def getMimeType (dataUrlOrUrl : String) : String :=
  if strStartsWith dataUrlOrUrl "data:" then
    match findDataMime dataUrlOrUrl.data with
    | some cap => String.mk cap
    | none => "image/png"
  else
    let extension := jsToLower (jsSplitLast '.' dataUrlOrUrl)
    if extension = "jpg" ∨ extension = "jpeg" then "image/jpeg"
    else if extension = "png" then "image/png"
    else if extension = "gif" then "image/gif"
    else if extension = "webp" then "image/webp"
    else if extension = "svg" then "image/svg+xml"
    else "image/png"

def isAlphaNumChar (c : Char) : Bool :=
  ('a' ≤ c ∧ c ≤ 'z') ∨ ('A' ≤ c ∧ c ≤ 'Z') ∨ ('0' ≤ c ∧ c ≤ '9')

/-- generateImageId: btoa of the joined key, non-alphanumerics removed,
first 16 characters.  `context.timestamp || Date.now()` falls back on a
falsy (absent or zero) timestamp. -/
def generateImageId (env : ExportEnv) (context : ImageContext) : String :=
  let ts : Nat :=
    match context.timestamp with
    | some t => if t = 0 then env.now else t
    | none => env.now
  let hash := btoa (context.conversationId ++ "-" ++ context.messageId ++ "-" ++
    toString context.imageIndex ++ "-" ++ toString ts)
  String.mk ((hash.data.filter isAlphaNumChar).take 16)

/-- generateImageFileName of image-utils. -/
def generateImageFileName (context : ImageContext) (extension : String) : String :=
  let rolePre : String :=
    match context.author with
    | none => "image"
    | some author =>
      if author.role = "assistant" then "chatgpt-response"
      else if author.role = "user" then "user-upload"
      else if author.role = "tool" then
        match author.name with
        | some n => if n = "" then "tool-result" else "tool-" ++ jsToLower n
        | none => "tool-result"
      else author.role
  let paddedIndex := padStart3 (toString context.imageIndex)
  rolePre ++ "-" ++ paddedIndex ++ "." ++ extension

/-- base64ToBlob: the Blob is modelled by its decoded byte list. -/
def base64ToBlob (base64 : String) : List Nat :=
  atobBytes (jsSplitIndex1 ',' base64)

/-- `getFileSizeFromBase64` reads `base64.split(',')[1].length`; when the
string has no comma the JS code dereferences `undefined` and throws, which
the enclosing try/catch of each strategy turns into the failure
placeholder — modelled as `none`. -/
def getFileSizeFromBase64 (base64 : String) : Option Nat :=
  match jsSplit ',' base64 with
  | _ :: y :: _ => some ((y.length * 3 + 3) / 4)
  | _ => none

def sanitizedChar (c : Char) : Char :=
  if c = '<' ∨ c = '>' ∨ c = ':' ∨ c = '"' ∨ c = '/' ∨ c = '\\' ∨ c = '|' ∨
     c = '?' ∨ c = '*' then '_' else c

/-- `replace(/\s+/g, '-')`: each maximal whitespace run becomes one '-'. -/
def collapseWsGo : Bool → List Char → List Char
  | _, [] => []
  | inRun, c :: rest =>
    if jsIsWs c then
      if inRun then collapseWsGo true rest else '-' :: collapseWsGo true rest
    else c :: collapseWsGo false rest

/-- sanitizeFileName of image-utils. -/
def sanitizeFileName (fileName : String) : String :=
  jsToLower (String.mk (collapseWsGo false (fileName.data.map sanitizedChar)))

def createImageRelativePath (fileName : String) : String :=
  "images/" ++ fileName

-- ---------------------------------------------------------------------------
-- Strategies (src/exporter/image-strategies.ts)
-- ---------------------------------------------------------------------------

/-- The catch branch shared by EmbedBase64Strategy and SeparateFilesStrategy. -/
def failedProcessedImage (id mimeType imageUrl : String) (context : ImageContext) :
    ProcessedImage :=
  { id := id
    content := "[Image Processing Failed]"
    originalData := none
    metadata := some
      { originalUrl := imageUrl, mimeType := mimeType, fileSize := none
        timestamp := context.timestamp, messageContext := none }
    fileName := none }

/-- `context.author.name || context.author.role` packaged as messageContext. -/
def authorMessageContext (context : ImageContext) : Option (String × String) :=
  context.author.map (fun a =>
    (match a.name with
     | some n => if n = "" then a.role else n
     | none => a.role, a.role))

/-- EmbedBase64Strategy.processImage. -/
def embedBase64ProcessImage (env : ExportEnv) (imageUrl : String)
    (context : ImageContext) : ProcessedImage :=
  let id := generateImageId env context
  let mimeType := getMimeType imageUrl
  match env.fetchB64 imageUrl with
  | none => failedProcessedImage id mimeType imageUrl context
  | some base64Data =>
    match getFileSizeFromBase64 base64Data with
    | none => failedProcessedImage id mimeType imageUrl context
    | some fileSize =>
      { id := id
        content := "data:" ++ mimeType ++ ";base64," ++ jsSplitIndex1 ',' base64Data
        originalData := some base64Data
        metadata := some
          { originalUrl := imageUrl, mimeType := mimeType, fileSize := some fileSize
            timestamp := context.timestamp, messageContext := none }
        fileName := none }

def defaultMarkerText : String := "[Image Omitted]"

/-- `ScriptStorage.get(KEY_IMAGE_CUSTOM_MARKER) || '[Image Omitted]'`. -/
def getCustomMarkerText (env : ExportEnv) : String :=
  match env.customMarker with
  | some s => if s = "" then defaultMarkerText else s
  | none => defaultMarkerText

/-- TextMarkerStrategy.processImage. -/
def textMarkerProcessImage (env : ExportEnv) (imageUrl : String)
    (context : ImageContext) : ProcessedImage :=
  let id := generateImageId env context
  let mimeType := getMimeType imageUrl
  { id := id
    content := getCustomMarkerText env
    originalData := none
    metadata := some
      { originalUrl := imageUrl, mimeType := mimeType, fileSize := none
        timestamp := context.timestamp, messageContext := authorMessageContext context }
    fileName := none }

/-- SeparateFilesStrategy.processImage. -/
def separateFilesProcessImage (env : ExportEnv) (imageUrl : String)
    (context : ImageContext) : ProcessedImage :=
  let id := generateImageId env context
  let mimeType := getMimeType imageUrl
  match env.fetchB64 imageUrl with
  | none => failedProcessedImage id mimeType imageUrl context
  | some base64Data =>
    let extension :=
      match jsSplit '/' mimeType with
      | _ :: y :: _ => if y = "" then "png" else y
      | _ => "png"
    let fileName := sanitizeFileName (generateImageFileName context extension)
    let relativePath := createImageRelativePath fileName
    match getFileSizeFromBase64 base64Data with
    | none => failedProcessedImage id mimeType imageUrl context
    | some fileSize =>
      { id := id
        content := relativePath
        originalData := some base64Data
        fileName := some fileName
        metadata := some
          { originalUrl := imageUrl, mimeType := mimeType, fileSize := some fileSize
            timestamp := context.timestamp, messageContext := authorMessageContext context } }

/-- createImageProcessor: dispatch on the closed strategy set. -/
def processImageFor : ImageHandlingStrategy → ExportEnv → String → ImageContext → ProcessedImage
  | .embedBase64 => embedBase64ProcessImage
  | .textMarker => textMarkerProcessImage
  | .separateFiles => separateFilesProcessImage

-- ---------------------------------------------------------------------------
-- Coordinator (src/exporter/image-handler.ts)
-- ---------------------------------------------------------------------------

/-- Result record of DefaultImageHandler.processConversationImages. -/
structure ConvImagesResult where
  content : String
  files : Option (List ExportFile)
  metadata : Option ExportMetadata
  processedImages : List ProcessedImage
deriving DecidableEq

def dummyImageContext : ImageContext :=
  { conversationId := "", messageId := "", imageIndex := 0, mimeType := ""
    originalUrl := "", contentType := "", author := none, timestamp := none }

/-- `Promise.all` over the mapped image list: each concurrent task writes
its result into the slot of its input index; `order` is the completion
order of the tasks.  The aggregate is read out in slot (input) order. -/
def promiseAllSlots (f : Nat → α) (n : Nat) (order : List Nat) : List (Option α) :=
  order.foldl (fun acc i => acc.set i (some (f i))) (List.replicate n none)

def promiseAll (f : Nat → α) (n : Nat) (order : List Nat) : List α :=
  (promiseAllSlots f n order).filterMap id

/-- The per-image task of processConversationImages.  The processor of
every strategy catches its own errors and returns a placeholder, so the
handler-level catch branch (which would synthesize an `error-…` id) is
unreachable in this model.  The out-of-range branch is unreachable for
the indices `Promise.all` produces. -/
def processOneImage (strategy : ImageHandlingStrategy) (env : ExportEnv)
    (images : List (String × ImageContext)) (i : Nat) : ProcessedImage :=
  match images.get? i with
  | some (url, context) => processImageFor strategy env url context
  | none => processImageFor strategy env "" dummyImageContext

/-- generateExportMetadata of DefaultImageHandler. -/
def generateExportMetadata (env : ExportEnv) (strategy : ImageHandlingStrategy)
    (processedImages : List ProcessedImage) : ExportMetadata :=
  let imageMetadata :=
    (processedImages.filter (fun img =>
      img.metadata.isSome &&
        (match img.fileName with
         | some fn => fn != ""
         | none => false))).filterMap (fun img =>
      match img.metadata, img.fileName with
      | some md, some fn =>
        some { id := img.id
               originalUrl := md.originalUrl
               fileName := fn
               mimeType := md.mimeType
               size := md.fileSize.getD 0
               mcMessageId :=
                 match md.messageContext with
                 | some _ => none
                 | none => some ""
               mcAuthor := (md.messageContext.map Prod.fst).getD "unknown"
               mcRole := (md.messageContext.map Prod.snd).getD "unknown" }
      | _, _ => none)
  { version := "1.0.0"
    exportDate := env.nowIso
    conversationTitle := "[CONVERSATION_TITLE]"
    imageHandlingStrategy := strategy.name
    totalImages := processedImages.length
    images := imageMetadata
    imageQuality := 85
    maxImageSize := 2048
    includeImageMetadata := true }

/-- generateContentFromImages: for the separate-files strategy, collect an
ExportFile for every image that carries payload, file name and metadata
(string truthiness on the payload and file name, as in the source). -/
def generateContentFiles (strategy : ImageHandlingStrategy)
    (processedImages : List ProcessedImage) : List ExportFile :=
  if strategy = .separateFiles then
    processedImages.filterMap (fun image =>
      match image.originalData, image.fileName, image.metadata with
      | some od, some fn, some md =>
        if od ≠ "" ∧ fn ≠ "" then
          some { path := image.content
                 data := base64ToBlob od
                 mimeType := md.mimeType }
        else none
      | _, _, _ => none)
  else []

/-- DefaultImageHandler.processConversationImages.  `order` is the
completion order of the concurrent per-image fetches; `Promise.all`
re-assembles results by input index regardless of it. -/
def processConversationImages (strategy : ImageHandlingStrategy) (env : ExportEnv)
    (images : List (String × ImageContext)) (order : List Nat) : ConvImagesResult :=
  let processedImages := promiseAll (processOneImage strategy env images) images.length order
  let files := generateContentFiles strategy processedImages
  let filesOpt := if files.length > 0 then some files else none
  let metadata :=
    if strategy = .separateFiles ∧ files.length > 0 then
      some (generateExportMetadata env strategy processedImages)
    else none
  { content := "[CONTENT_PLACEHOLDER]"
    files := filesOpt
    metadata := metadata
    processedImages := processedImages }

-- ---------------------------------------------------------------------------
-- Image extraction (extractImagesFromConversation, Markdown and HTML
-- renderer versions of src/exporter/markdown.ts)
-- ---------------------------------------------------------------------------

/-- `message.id || 'node-' + nodeIndex`. -/
def messageIdOf (m : Message) (nodeIndex : Nat) : String :=
  match m.id with
  | some s => if s = "" then "node-" ++ toString nodeIndex else s
  | none => "node-" ++ toString nodeIndex

/-- The images one message contributes, Markdown-renderer version.  For
`multimodal_text` parts the guard is `part.content_type ===
'image_asset_pointer' && part.asset_pointer` (truthiness on the
pointer). -/
def extractFromMessageMd (cid : String) (nodeIndex : Nat) (m : Message) :
    List (String × ImageContext) :=
  match m.content with
  | none => []
  | some c =>
    match c with
    | .executionOutput _ =>
      match m.metadata.aggregateMessages with
      | none => []
      | some msgs =>
        (msgs.filterMap (fun msg =>
          match msg.image_url with
          | some u => if msg.message_type = "image" ∧ u ≠ "" then some u else none
          | none => none)).enum.map (fun (imageIndex, u) =>
          (u, { conversationId := cid
                messageId := messageIdOf m nodeIndex
                imageIndex := imageIndex
                mimeType := "image/png"
                originalUrl := u
                contentType := "image_url"
                author := some m.author
                timestamp := m.createTime }))
    | .multimodalText parts =>
      match parts with
      | none => []
      | some ps =>
        (ps.filterMap (fun part =>
          match part with
          | .imagePart (some p) => if p ≠ "" then some p else none
          | _ => none)).enum.map (fun (imageIndex, p) =>
          (p, { conversationId := cid
                messageId := messageIdOf m nodeIndex
                imageIndex := imageIndex
                mimeType := "image/png"
                originalUrl := p
                contentType := "multimodal_text"
                author := some m.author
                timestamp := m.createTime }))
    | _ => []

/-- The images one message contributes, HTML-renderer version.  The
`multimodal_text` guard is `'asset_pointer' in part` — key presence, not
truthiness, so a present-but-empty pointer is extracted. -/
def extractFromMessageHtml (cid : String) (nodeIndex : Nat) (m : Message) :
    List (String × ImageContext) :=
  match m.content with
  | none => []
  | some c =>
    match c with
    | .executionOutput _ =>
      match m.metadata.aggregateMessages with
      | none => []
      | some msgs =>
        (msgs.filterMap (fun msg =>
          match msg.image_url with
          | some u => if msg.message_type = "image" ∧ u ≠ "" then some u else none
          | none => none)).enum.map (fun (imageIndex, u) =>
          (u, { conversationId := cid
                messageId := messageIdOf m nodeIndex
                imageIndex := imageIndex
                mimeType := "image/png"
                originalUrl := u
                contentType := "image_url"
                author := some m.author
                timestamp := m.createTime }))
    | .multimodalText parts =>
      match parts with
      | none => []
      | some ps =>
        (ps.filterMap (fun part =>
          match part with
          | .imagePart (some p) => some p
          | _ => none)).enum.map (fun (imageIndex, p) =>
          (p, { conversationId := cid
                messageId := messageIdOf m nodeIndex
                imageIndex := imageIndex
                mimeType := "image/png"
                originalUrl := p
                contentType := "multimodal_text"
                author := some m.author
                timestamp := m.createTime }))
    | _ => []

/-- Node walk shared by both extractors; a node without a message
contributes nothing. -/
def extractNodes (ext : String → Nat → Message → List (String × ImageContext))
    (cid : String) : Nat → List ConversationNode → List (String × ImageContext)
  | _, [] => []
  | nodeIndex, ⟨none⟩ :: rest => extractNodes ext cid (nodeIndex + 1) rest
  | nodeIndex, ⟨some m⟩ :: rest =>
    ext cid nodeIndex m ++ extractNodes ext cid (nodeIndex + 1) rest

/-- extractImagesFromConversation, Markdown renderer. -/
def extractImagesFromConversationMd (c : Conversation) : List (String × ImageContext) :=
  extractNodes extractFromMessageMd c.id 0 c.conversationNodes

/-- extractImagesFromConversation, HTML renderer. -/
def extractImagesFromConversationHtml (c : Conversation) : List (String × ImageContext) :=
  extractNodes extractFromMessageHtml c.id 0 c.conversationNodes

/-- countImagesInMessage (identical in both renderer halves). -/
def countImagesInMessage (m : Message) : Nat :=
  match m.content with
  | none => 0
  | some c =>
    match c with
    | .executionOutput _ =>
      match m.metadata.aggregateMessages with
      | none => 0
      | some msgs => (msgs.filter (fun msg => msg.message_type = "image")).length
    | .multimodalText parts =>
      match parts with
      | none => 0
      | some ps =>
        (ps.filter (fun part =>
          match part with
          | .imagePart _ => true
          | _ => false)).length
    | _ => 0

-- ---------------------------------------------------------------------------
-- A small backtracking regex engine, sufficient for the LatexRegex patterns
-- (multiline flag; repetition occurs only over single-character classes)
-- ---------------------------------------------------------------------------

inductive CharCls where
  | dot
  | anyCh
  | wsCls
deriving DecidableEq

def CharCls.test : CharCls → Char → Bool
  | .dot, c => c ≠ '\n'
  | .anyCh, _ => true
  | .wsCls, c => jsIsWs c

inductive Re where
  | eps
  | lit (c : Char)
  | cls (k : CharCls)
  | plus (k : CharCls) (lazyRep : Bool)
  | seq (a b : Re)
  | alt (a b : Re)
  | bol
  | eol

def reCat (l : List Re) : Re :=
  l.foldr Re.seq Re.eps

def clsRunLen (inp : List Char) (k : CharCls) (i : Nat) : Nat :=
  ((inp.drop i).takeWhile k.test).length

/-- Backtracking matcher in continuation style; positions are indices into
`inp`; `^`/`$` use the JS multiline rule. Alternatives are tried left to
right, greedy repetition longest-first, lazy repetition shortest-first. -/
def reMatch (inp : List Char) : Re → Nat → (Nat → Option Nat) → Option Nat
  | .eps, i, k => k i
  | .lit c, i, k => if inp.get? i = some c then k (i + 1) else none
  | .cls cc, i, k =>
    match inp.get? i with
    | some ch => if cc.test ch then k (i + 1) else none
    | none => none
  | .plus cc lz, i, k =>
    let m := clsRunLen inp cc i
    let cands := if lz then (List.range m).map (· + 1) else ((List.range m).map (· + 1)).reverse
    cands.findSome? (fun n => k (i + n))
  | .seq a b, i, k => reMatch inp a i (fun j => reMatch inp b j k)
  | .alt a b, i, k =>
    match reMatch inp a i k with
    | some r => some r
    | none => reMatch inp b i k
  | .bol, i, k => if i = 0 ∨ inp.get? (i - 1) = some '\n' then k i else none
  | .eol, i, k => if inp.get? i = none ∨ inp.get? i = some '\n' then k i else none

/-- First match at position ≥ `i`: returns (start, stop). -/
def reFirstFrom (inp : List Char) (re : Re) : Nat → Nat → Option (Nat × Nat)
  | 0, _ => none
  | fuel + 1, i =>
    match reMatch inp re i some with
    | some e => some (i, e)
    | none => if i < inp.length then reFirstFrom inp re fuel (i + 1) else none

/-- The scan shared by `String.match` (global) and `String.replace`
(global): alternating gaps and matches, `gaps.length = matches.length + 1`.
The `e ≤ s` branch mirrors the lastIndex bump of JS on an empty match; it
is unreachable for the patterns below, which all consume at least one
character. -/
def reScanGo (inp : List Char) (re : Re) : Nat → Nat → (List String × List String)
  | 0, i => ([String.mk (inp.drop i)], [])
  | fuel + 1, i =>
    match reFirstFrom inp re (inp.length + 1 - i) i with
    | none => ([String.mk (inp.drop i)], [])
    | some (s, e) =>
      let gap := String.mk ((inp.drop i).take (s - i))
      let mtch := String.mk ((inp.drop s).take (e - s))
      if e > s then
        let r := reScanGo inp re fuel e
        (gap :: r.1, mtch :: r.2)
      else
        match reScanGo inp re fuel (s + 1), inp.get? s with
        | (g :: gs, ms), some c => (gap :: (String.mk [c] ++ g) :: gs, "" :: ms)
        | (gaps, ms), _ => (gap :: gaps, "" :: ms)

def reScan (re : Re) (s : String) : List String × List String :=
  reScanGo s.data re (s.data.length + 1) 0

/-- The LatexRegex of the Markdown renderer (greedy repetitions). -/
def mdLatexRe : Re :=
  Re.alt (reCat [.cls .wsCls, .lit '$', .lit '$', .plus .dot false, .lit '$', .lit '$', .cls .wsCls])
  (Re.alt (reCat [.cls .wsCls, .lit '$', .plus .dot false, .lit '$', .cls .wsCls])
  (Re.alt (reCat [.lit '\\', .lit '[', .plus .dot false, .lit '\\', .lit ']'])
  (Re.alt (reCat [.lit '\\', .lit '(', .plus .dot false, .lit '\\', .lit ')'])
  (Re.alt (reCat [.bol, .lit '$', .eol, .plus .anyCh false, .bol, .lit '$', .eol])
          (reCat [.bol, .lit '$', .lit '$', .plus .anyCh false, .bol, .lit '$', .lit '$', .eol])))))

/-- The LatexRegex of the HTML renderer (lazy repetitions; the last
alternative ends in three literal dollars instead of `$$` + end-of-line). -/
def htmlLatexRe : Re :=
  Re.alt (reCat [.cls .wsCls, .lit '$', .lit '$', .plus .dot true, .lit '$', .lit '$', .cls .wsCls])
  (Re.alt (reCat [.cls .wsCls, .lit '$', .plus .dot true, .lit '$', .cls .wsCls])
  (Re.alt (reCat [.lit '\\', .lit '[', .plus .dot true, .lit '\\', .lit ']'])
  (Re.alt (reCat [.lit '\\', .lit '(', .plus .dot true, .lit '\\', .lit ')'])
  (Re.alt (reCat [.bol, .lit '$', .eol, .plus .anyCh true, .bol, .lit '$', .eol])
          (reCat [.bol, .lit '$', .lit '$', .plus .anyCh true, .bol, .lit '$', .lit '$', .lit '$'])))))

-- ---------------------------------------------------------------------------
-- Math-delimiter normalization and sentinel protection
-- ---------------------------------------------------------------------------

/-- One line of `replace(/^\\\[(.+)\\\]$/gm, '$$$$$1$$$$')`. -/
def displayMathLine (l : List Char) : List Char :=
  if l.length ≥ 5 ∧ l.take 2 = ['\\', '['] ∧ l.drop (l.length - 2) = ['\\', ']'] then
    '$' :: '$' :: ((l.drop 2).take (l.length - 4)) ++ ['$', '$']
  else l

def replaceDisplayMathLines (s : String) : String :=
  String.intercalate "\n" ((splitOnChar '\n' s.data).map (fun l => String.mk (displayMathLine l)))

/-- Global replacement of the two-character pattern `[a, b]` by `rep`. -/
def replacePair (a b : Char) (rep : List Char) : List Char → List Char
  | x :: y :: rest =>
    if x = a ∧ y = b then rep ++ replacePair a b rep rest
    else x :: replacePair a b rep (y :: rest)
  | l => l

/-- The delimiter normalization `\[ \] \( \)` → dollars.  The Markdown
renderer writes the replacements as `'$'`, the HTML renderer as `'$$'`,
which in a JS replacement string is also a single literal dollar — the two
normalizations are the same function. -/
def normalizeMathDelims (s : String) : String :=
  let s1 := replaceDisplayMathLines s
  String.mk (replacePair '\\' ')' ['$']
    (replacePair '\\' '(' ['$']
      (replacePair '\\' ']' ['$']
        (replacePair '\\' '[' ['$'] s1.data))))

def sentinelTok (i : Nat) : String :=
  "╬" ++ toString i ++ "╬"

/-- Interleave the gaps of a scan with sentinel tokens numbered from `i` —
the result of `input.replace(LatexRegex, () => sentinel(index++))`. -/
def chainStr : List String → Nat → String
  | [], _ => ""
  | [g], _ => g
  | g :: gs, i => g ++ sentinelTok i ++ chainStr gs (i + 1)

def isDigitsNonempty (s : String) : Bool :=
  s ≠ "" && s.data.all isDigitChar

/-- `transformed.replace(/╬(\d+)╬/g, (_, index) => matches[+index])` —
implemented over the '╬'-split pieces of the input; an out-of-range index
yields the string "undefined" as in JS. -/
def restoreSentinels (ms : List String) : List String → String
  | [] => ""
  | [p] => p
  | p :: q :: rest =>
    if isDigitsNonempty q ∧ rest ≠ [] then
      p ++ ms.getD (digitsToNat q.data) "undefined" ++ restoreSentinels ms rest
    else p ++ "╬" ++ restoreSentinels ms (q :: rest)

def restoreSentinelsStr (ms : List String) (s : String) : String :=
  restoreSentinels ms ((splitOnChar '╬' s.data).map String.mk)

/-- The math-protection post-step of the Markdown renderer.  `rt` stands
for `toMarkdown(fromMarkdown(·))` of src/utils/markdown — repository code
that is not under src/. Modelled from the spec: a structural
Markdown-preserving parse-then-print round trip, kept abstract. -/
def mdMathStep (rt : String → String) (input0 : String) : String :=
  let input := normalizeMathDelims input0
  let scanned := reScan mdLatexRe input
  let ms := scanned.2
  let isCodeBlock := strContainsB input "```"
  let protectedInput := if isCodeBlock = false ∧ ms ≠ [] then chainStr scanned.1 0 else input
  let transformed := rt protectedInput
  if isCodeBlock = false ∧ ms ≠ [] then restoreSentinelsStr ms transformed else transformed

/-- The math-protection post-step of the HTML renderer: matching happens
before normalization, and normalization is applied only on the protected
branch.  `rt` stands for `toHtml(fromMarkdown(·))`, abstract as above. -/
def htmlMathStep (rt : String → String) (input0 : String) : String :=
  let scanned := reScan htmlLatexRe input0
  let ms := scanned.2
  let isCodeBlock := strContainsB input0 "```"
  let protectedInput :=
    if isCodeBlock = false ∧ ms ≠ [] then normalizeMathDelims (chainStr scanned.1 0) else input0
  let transformed := rt protectedInput
  if isCodeBlock = false ∧ ms ≠ [] then restoreSentinelsStr ms transformed else transformed

-- ---------------------------------------------------------------------------
-- Footnote rewriting (transformFootNotes, Markdown and HTML versions)
-- ---------------------------------------------------------------------------

/-- Lazy search for `)】` terminating the label capture of
`【(\d+)†\((.+?)\)】`; `.` does not cross a newline. -/
def findCloseParen : List Char → Option (List Char × List Char)
  | [] => none
  | c :: s =>
    if c = '\n' then none
    else if s.take 2 = [')', '】'] then some ([c], s.drop 2)
    else
      match findCloseParen s with
      | some (lab, r) => some (c :: lab, r)
      | none => none

/-- Parse `(\d+)†\((.+?)\)】` following an opening `【`. -/
def parseFootMark (l : List Char) : Option (List Char × List Char × List Char) :=
  let digits := l.takeWhile isDigitChar
  let rest := l.dropWhile isDigitChar
  if digits = [] then none
  else
    match rest with
    | '†' :: '(' :: rest2 =>
      match findCloseParen rest2 with
      | some (label, after) => some (digits, label, after)
      | none => none
    | _ => none

def footMarkChars (digits label : List Char) : List Char :=
  '【' :: (digits ++ '†' :: '(' :: (label ++ [')', '】']))

/-- `cite.metadata?.extra?.cited_message_idx === +citeIndex` over the
citation list. -/
def jsFindCitation (metadata : MsgMetadata) (digits : List Char) : Option Citation :=
  match metadata.citations with
  | none => none
  | some cites => cites.find? (fun cite => cite.citedMessageIdx = some (digitsToNat digits))

/-- The marker scan of the Markdown transformFootNotes: a matched marker
becomes `[^n]` and its citation is collected; an unmatched marker is kept
verbatim; scanning resumes after each match. -/
def footnoteScanMd (find : List Char → Option Citation) :
    Nat → List Char → (List Char × List Citation)
  | 0, s => (s, [])
  | _ + 1, [] => ([], [])
  | fuel + 1, c :: rest =>
    if c = '【' then
      match parseFootMark rest with
      | some (digits, _label, after) =>
        match find digits with
        | some cite =>
          let r := footnoteScanMd find fuel after
          ('[' :: '^' :: (digits ++ ']' :: r.1), cite :: r.2)
        | none =>
          let r := footnoteScanMd find fuel after
          (footMarkChars digits _label ++ r.1, r.2)
      | none =>
        let r := footnoteScanMd find fuel rest
        ('【' :: r.1, r.2)
    else
      let r := footnoteScanMd find fuel rest
      (c :: r.1, r.2)

/-- transformFootNotes, Markdown renderer. -/
def transformFootNotesMd (input : String) (metadata : MsgMetadata) : String :=
  let r := footnoteScanMd (jsFindCitation metadata) (input.data.length + 1) input.data
  let citationText := String.intercalate "\n" (r.2.map (fun citation =>
    "[^" ++ toString (citation.citedMessageIdx.getD 1) ++ "]: " ++ citation.title.getD "No title"))
  String.mk r.1 ++ "\n\n" ++ citationText

/-- The marker scan of the HTML transformFootNotes: a matched marker is
deleted, an unmatched one kept verbatim. -/
def footnoteScanHtml (find : List Char → Option Citation) : Nat → List Char → List Char
  | 0, s => s
  | _ + 1, [] => []
  | fuel + 1, c :: rest =>
    if c = '【' then
      match parseFootMark rest with
      | some (digits, _label, after) =>
        match find digits with
        | some _ => footnoteScanHtml find fuel after
        | none => footMarkChars digits _label ++ footnoteScanHtml find fuel after
      | none => '【' :: footnoteScanHtml find fuel rest
    else c :: footnoteScanHtml find fuel rest

/-- transformFootNotes, HTML renderer. -/
def transformFootNotesHtml (input : String) (metadata : MsgMetadata) : String :=
  String.mk (footnoteScanHtml (jsFindCitation metadata) (input.data.length + 1) input.data)

-- ---------------------------------------------------------------------------
-- Content rendering (transformContent, Markdown and HTML versions)
-- ---------------------------------------------------------------------------

/-- `a || b` on JS strings where `a` is possibly undefined. -/
def jsOrElse (o : Option String) (d : String) : String :=
  match o with
  | some s => if s = "" then d else s
  | none => d

/-- escapeHtml of the HTML renderer.  The five sequential global replaces
are equivalent to this character-wise expansion, because the replacement
entities contain none of the characters replaced by any later pass. -/
def escapeHtml (html : String) : String :=
  String.mk (List.flatten (html.data.map (fun c =>
    if c = '&' then "&amp;".data
    else if c = '<' then "&lt;".data
    else if c = '>' then "&gt;".data
    else if c = '"' then "&quot;".data
    else if c = (Char.ofNat 39) then "&#039;".data
    else [c])))

/-- transformContent, Markdown renderer. -/
def transformContentMd (content : Content) (metadata : MsgMetadata)
    (postProcess : String → String) (processedImages : List ProcessedImage)
    (imageStartIndex : Nat) : String :=
  match content with
  | .text parts =>
    postProcess ((parts.map (String.intercalate "\n")).getD "")
  | .code t => "Code:\n```\n" ++ t ++ "\n```"
  | .executionOutput t =>
    match metadata.aggregateMessages with
    | some msgs =>
      let imageMessages := msgs.filter (fun msg => msg.message_type = "image")
      if imageMessages.length > 0 then
        let imageContent := String.intercalate "\n\n" (imageMessages.enum.map (fun p =>
          let globalIndex := imageStartIndex + p.1
          match processedImages.get? globalIndex with
          | some processedImage =>
            if processedImage.content ≠ "" then "![image](" ++ processedImage.content ++ ")"
            else "[IMAGE_" ++ toString globalIndex ++ "]"
          | none => "[IMAGE_" ++ toString globalIndex ++ "]"))
        postProcess ("Result:\n```\n" ++ t ++ "\n```" ++
          (if imageContent ≠ "" then "\n\n" ++ imageContent else ""))
      else postProcess ("Result:\n```\n" ++ t ++ "\n```")
    | none => postProcess ("Result:\n```\n" ++ t ++ "\n```")
  | .tetherQuote title text =>
    postProcess ("> " ++ jsOrElse title (jsOrElse text ""))
  | .tetherBrowsingCode => postProcess ""
  | .tetherBrowsingDisplay =>
    match metadata.citeMetadataList with
    | some l =>
      if l.length > 0 then
        postProcess (String.intercalate "\n"
          (l.map (fun tu => "> [" ++ tu.1 ++ "](" ++ tu.2 ++ ")")))
      else postProcess ""
    | none => postProcess ""
  | .multimodalText parts =>
    let ps := parts.getD []
    let rendered := ps.enum.map (fun pq =>
      match pq.2 with
      | .textPart s => some (postProcess s)
      | .imagePart _ =>
        let imageIndexInMessage := ((ps.take pq.1).filter (fun p =>
          match p with
          | .imagePart _ => true
          | _ => false)).length
        let globalImageIndex := imageStartIndex + imageIndexInMessage
        match processedImages.get? globalImageIndex with
        | some processedImage =>
          if processedImage.content ≠ "" then some ("![image](" ++ processedImage.content ++ ")")
          else some ("[IMAGE_" ++ toString globalImageIndex ++ "]")
        | none => some ("[IMAGE_" ++ toString globalImageIndex ++ "]")
      | .audioTranscription tx => some ("[audio] " ++ tx)
      | .audioAssetPointer => none
      | .realTimeUserAudioVideoAssetPointer => none
      | .otherPart => some (postProcess "[Unsupported multimodal content]"))
    String.intercalate "\n" (rendered.filterMap id)
  | .other _ => postProcess "[Unsupported Content]"

/-- transformContent, HTML renderer. -/
def transformContentHtml (content : Content) (metadata : MsgMetadata)
    (postProcess : String → String) (processedImages : List ProcessedImage)
    (imageStartIndex : Nat) : String :=
  match content with
  | .text parts =>
    postProcess ((parts.map (String.intercalate "\n")).getD "")
  | .code t => "Code:\n```\n" ++ t ++ "\n```"
  | .executionOutput t =>
    match metadata.aggregateMessages with
    | some msgs =>
      let imageMessages := msgs.filter (fun msg => msg.message_type = "image")
      if imageMessages.length > 0 then
        let imageContent := String.intercalate "\n\n" (imageMessages.enum.map (fun p =>
          let globalIndex := imageStartIndex + p.1
          match processedImages.get? globalIndex with
          | some processedImage =>
            if processedImage.content ≠ "" then "<img src=\"" ++ processedImage.content ++ "\" />"
            else "[IMAGE_" ++ toString globalIndex ++ "]"
          | none => "[IMAGE_" ++ toString globalIndex ++ "]"))
        postProcess ("Result:\n```\n" ++ t ++ "\n```" ++
          (if imageContent ≠ "" then "\n\n" ++ imageContent else ""))
      else postProcess ("Result:\n```\n" ++ t ++ "\n```")
    | none => postProcess ("Result:\n```\n" ++ t ++ "\n```")
  | .tetherQuote title text =>
    postProcess ("> " ++ jsOrElse title (jsOrElse text ""))
  | .tetherBrowsingCode => postProcess ""
  | .tetherBrowsingDisplay =>
    match metadata.citeMetadataList with
    | some l =>
      if l.length > 0 then
        postProcess (String.intercalate "\n"
          (l.map (fun tu => "> [" ++ tu.1 ++ "](" ++ tu.2 ++ ")")))
      else postProcess ""
    | none => postProcess ""
  | .multimodalText parts =>
    let ps := parts.getD []
    let rendered := ps.enum.map (fun pq =>
      match pq.2 with
      | .textPart s => some (postProcess s)
      | .imagePart _ =>
        let imageIndexInMessage := ((ps.take pq.1).filter (fun p =>
          match p with
          | .imagePart _ => true
          | _ => false)).length
        let globalImageIndex := imageStartIndex + imageIndexInMessage
        match processedImages.get? globalImageIndex with
        | some processedImage =>
          if processedImage.content ≠ "" then
            some ("<img src=\"" ++ processedImage.content ++ "\" />")
          else some ("[IMAGE_" ++ toString globalImageIndex ++ "]")
        | none => some ("[IMAGE_" ++ toString globalImageIndex ++ "]")
      | .audioTranscription tx =>
        some ("<div style=\"font-style: italic; opacity: 0.65;\">\"" ++ tx ++ "\"</div>")
      | .audioAssetPointer => none
      | .realTimeUserAudioVideoAssetPointer => none
      | .otherPart => some (postProcess "[Unsupported multimodal content]"))
    String.intercalate "\n" (rendered.filterMap id)
  | .other contentType => postProcess ("[Unsupported Content: " ++ contentType ++ " ]")

-- ---------------------------------------------------------------------------
-- The per-message post-processing pipelines and the render loop
-- ---------------------------------------------------------------------------

def transformAuthor (author : Author) : String :=
  if author.role = "assistant" then "ChatGPT"
  else if author.role = "user" then "You"
  else if author.role = "tool" then
    "Plugin" ++
      (match author.name with
       | some n => if n = "" then "" else " (" ++ n ++ ")"
       | none => "")
  else author.role

/-- postProcess composed for one message of the Markdown renderer:
assistants get the footnote rewrite then the math-safe round trip;
everyone else gets the identity. -/
def mdPostProcessFor (rt : String → String) (m : Message) : String → String :=
  fun input =>
    if m.author.role = "assistant" then mdMathStep rt (transformFootNotesMd input m.metadata)
    else input

/-- postProcess composed for one message of the HTML renderer: assistants
get footnotes then the math-safe round trip to HTML; users get the escaped
no-katex paragraph. -/
def htmlPostProcessFor (rt : String → String) (m : Message) : String → String :=
  fun input =>
    if m.author.role = "assistant" then htmlMathStep rt (transformFootNotesHtml input m.metadata)
    else if m.author.role = "user" then "<p class=\"no-katex\">" ++ escapeHtml input ++ "</p>"
    else input

/-- The keep-condition of the tool-message special case: dalle multimodal
results and execution output carrying an image are shown. -/
def toolKeeps (m : Message) : Bool :=
  match m.content with
  | some (.multimodalText _) => true
  | some (.executionOutput _) =>
    match m.metadata.aggregateMessages with
    | some msgs => msgs.any (fun msg => msg.message_type = "image")
    | none => false
  | _ => false

/-- The three `continue` filters of the render loops (identical in both
renderers): content must be present, the message must be addressed to
'all', and tool-intermediate messages are dropped. -/
def messageRendered (m : Message) : Bool :=
  m.content.isSome && m.recipient == "all" && (m.author.role != "tool" || toolKeeps m)

/-- The render loop of conversationToMarkdown / conversationToHtml,
restricted to what it threads: the rendered messages in order, each paired
with the running `imageIndex` it receives as `imageStartIndex`.  Skipped
messages do not advance the counter. -/
def renderedWithIndex : List ConversationNode → Nat → List (Message × Nat)
  | [], _ => []
  | ⟨none⟩ :: rest, imageIndex => renderedWithIndex rest imageIndex
  | ⟨some m⟩ :: rest, imageIndex =>
    if messageRendered m then
      (m, imageIndex) :: renderedWithIndex rest (imageIndex + countImagesInMessage m)
    else renderedWithIndex rest imageIndex

/-- The final value of the loop's running `imageIndex`. -/
def finalImageIndex : List ConversationNode → Nat → Nat
  | [], i => i
  | ⟨none⟩ :: rest, i => finalImageIndex rest i
  | ⟨some m⟩ :: rest, i =>
    if messageRendered m then finalImageIndex rest (i + countImagesInMessage m)
    else finalImageIndex rest i

/-- The message blocks of conversationToMarkdown joined by blank lines.
`tsFragment` stands for the locale-dependent `<time>` fragment (empty when
timestamps are disabled). -/
def conversationBodyMd (rt : String → String) (tsFragment : Message → String)
    (processedImages : List ProcessedImage) (nodes : List ConversationNode) : String :=
  String.intercalate "\n\n" ((renderedWithIndex nodes 0).map (fun mi =>
    "#### " ++ transformAuthor mi.1.author ++ ":\n" ++ tsFragment mi.1 ++
      transformContentMd (mi.1.content.getD (Content.other "")) mi.1.metadata
        (mdPostProcessFor rt mi.1) processedImages mi.2))

/-- conversationToMarkdown for an empty metaList (no front matter):
extraction, image processing, then the render loop under the title
heading. -/
def conversationToMarkdown (rt : String → String) (tsFragment : Message → String)
    (strategy : ImageHandlingStrategy) (env : ExportEnv) (order : List Nat)
    (c : Conversation) : String :=
  let images := extractImagesFromConversationMd c
  let processedImages :=
    if images.length > 0 then (processConversationImages strategy env images order).processedImages
    else []
  "# " ++ c.title ++ "\n\n" ++ conversationBodyMd rt tsFragment processedImages c.conversationNodes

-- ---------------------------------------------------------------------------
-- Batch-export file-name de-duplication (exportAllToMarkdown /
-- exportAllToHtml; getFileNameWithFormat lives outside src and is
-- abstracted into the computed name list)
-- ---------------------------------------------------------------------------

/-- `Map.set` on the association-list model of the JS Map. -/
def mapSet : List (String × Nat) → String → Nat → List (String × Nat)
  | [], k, v => [(k, v)]
  | (k0, v0) :: rest, k, v =>
    if k0 = k then (k, v) :: rest else (k0, v0) :: mapSet rest k v

/-- JavaScript `s.slice(0, -k)` on the character-list view. -/
def jsSliceNeg (k : Nat) (s : String) : String :=
  String.mk (s.data.take (s.data.length - k))

/-- The de-duplication loop of exportAllToMarkdown (extLen 3, ext ".md")
and exportAllToHtml (extLen 5, ext ".html"): a repeated name gets
` (count)` spliced in before the extension and the stored count is
incremented. -/
def dedupFileNames (extLen : Nat) (ext : String) :
    List (String × Nat) → List String → List String
  | _, [] => []
  | fmap, fileName :: rest =>
    match fmap.lookup fileName with
    | some count =>
      (jsSliceNeg extLen fileName ++ " (" ++ toString count ++ ")" ++ ext) ::
        dedupFileNames extLen ext (mapSet fmap fileName (count + 1)) rest
    | none => fileName :: dedupFileNames extLen ext (mapSet fmap fileName 1) rest

def exportAllFileNamesMd (names : List String) : List String :=
  dedupFileNames 3 ".md" [] names

def exportAllFileNamesHtml (names : List String) : List String :=
  dedupFileNames 5 ".html" [] names

-- ---------------------------------------------------------------------------
-- Predicates and helpers used in the statements of the claims
-- ---------------------------------------------------------------------------

/-- The collision-counter renaming a name receives on its c-th repetition. -/
def mangleName (extLen : Nat) (ext : String) (n : String) (c : Nat) : String :=
  if c = 0 then n else jsSliceNeg extLen n ++ " (" ++ toString c ++ ")" ++ ext

/-- Every image-typed aggregate entry carries a nonempty url. -/
def aggUrlOk (msg : AggMsg) : Bool :=
  if msg.message_type = "image" then
    match msg.image_url with
    | some u => u ≠ ""
    | none => false
  else true

/-- Every image part carries a present nonempty asset pointer. -/
def partPtrOk : MultiPart → Bool
  | .imagePart (some p) => p ≠ ""
  | .imagePart none => false
  | _ => true

/-- An image part's asset pointer is not present-but-empty (absent is
fine: both extractors skip it). -/
def partPtrNotEmpty : MultiPart → Bool
  | .imagePart (some p) => p ≠ ""
  | _ => true

/-- countImagesInMessage counts exactly what extraction collects. -/
def goodImageUrls (m : Message) : Bool :=
  (match m.metadata.aggregateMessages with
   | some msgs => msgs.all aggUrlOk
   | none => true) &&
  (match m.content with
   | some (.multimodalText (some ps)) => ps.all partPtrOk
   | _ => true)

/-- C2 as the spec states it: every rendered message receives an
imageStartIndex equal to the number of images extracted from the nodes
preceding it, and the accumulated per-message counts reach the global
extraction count. -/
def imageIndexConsistent (c : Conversation) : Prop :=
  (∀ j node m, c.conversationNodes.get? j = some node → node.message = some m →
    messageRendered m = true →
    renderedWithIndex c.conversationNodes 0 =
      renderedWithIndex (c.conversationNodes.take j) 0 ++
        (m, (extractNodes extractFromMessageMd c.id 0 (c.conversationNodes.take j)).length) ::
          renderedWithIndex (c.conversationNodes.drop (j + 1))
            ((extractNodes extractFromMessageMd c.id 0 (c.conversationNodes.take j)).length +
              countImagesInMessage m)) ∧
  finalImageIndex c.conversationNodes 0 = (extractImagesFromConversationMd c).length

/-- C6 as the spec states it: a fenced code block makes the math step
leave the message text unaltered. -/
def codeFenceLeavesTextUnchanged : Prop :=
  ∀ (rt : String → String) (input : String), strContains input "```" →
    mdMathStep rt input = input ∧ htmlMathStep rt input = input

/-- C8 as the spec states it: code, raw quote/link and execution-output
fragments are never run through postProcess (their fragment does not
depend on it). -/
def rawFragmentsBypassPostProcess : Prop :=
  ∀ (content : Content) (meta : MsgMetadata) (pp : String → String)
    (imgs : List ProcessedImage) (i : Nat),
    (match content with
     | .code _ => True
     | .tetherQuote _ _ => True
     | .tetherBrowsingDisplay => True
     | .executionOutput _ => True
     | _ => False) →
    transformContentMd content meta pp imgs i =
        transformContentMd content meta (fun s => s) imgs i ∧
      transformContentHtml content meta pp imgs i =
        transformContentHtml content meta (fun s => s) imgs i

def noSentinelChar (s : String) : Bool :=
  s.data.all (fun c => c ≠ '╬')

/-- The gaps of a protection scan with each sentinel replaced by the
corresponding matched span (the intended output of the restore pass). -/
def chainFill (ms : List String) : List String → Nat → String
  | [], _ => ""
  | [g], _ => g
  | g :: gs, i => g ++ ms.getD i "undefined" ++ chainFill ms gs (i + 1)

/-- The round trip preserves the sentinel structure: its output is again
sentinel-free gaps interleaved with the sentinels 0..n-1 in order.
Modelled from the spec: the structural round trip may reformat prose but
"cannot alter" protected spans. -/
def sentinelSafe (ms : List String) (s : String) : Prop :=
  ∃ gaps : List String, gaps.length = ms.length + 1 ∧
    (∀ g ∈ gaps, noSentinelChar g = true) ∧ s = chainStr gaps 0

/-- An adjacent `)】` pair occurs in the list (which would end a citation
label early). -/
def hasCloseSeq : List Char → Bool
  | a :: b :: rest => (a = ')' && b = '】') || hasCloseSeq (b :: rest)
  | _ => false

-- ---------------------------------------------------------------------------
-- Concrete fixtures used by witnesses and counterexamples
-- ---------------------------------------------------------------------------

/-- An environment whose fetches all succeed with a fixed data URL. -/
def envAllOk : ExportEnv :=
  ⟨fun _ => some "data:image/png;base64,AAAA", 7, "iso", none⟩

/-- An environment in which fetching the url "bad" fails. -/
def envBadSecond : ExportEnv :=
  ⟨fun u => if u = "bad" then none else some "data:image/png;base64,AAAA", 7, "iso", none⟩

def imagesW : List (String × ImageContext) :=
  [("ok", dummyImageContext), ("bad", dummyImageContext)]

/-- A message whose multimodal image part has a present but empty
asset_pointer. -/
def msgEmptyPtr : Message :=
  ⟨some "m1", ⟨"assistant", none⟩, some (.multimodalText (some [.imagePart (some "")])),
   MsgMetadata.empty, "all", some 1⟩

def convEmptyPtr : Conversation := ⟨"c", "t", [⟨some msgEmptyPtr⟩]⟩

/-- A message addressed to a tool (recipient ≠ "all") that carries an
image. -/
def msgToTool : Message :=
  ⟨some "m1", ⟨"assistant", none⟩, some (.multimodalText (some [.imagePart (some "p1")])),
   MsgMetadata.empty, "browser", some 1⟩

def msgNormal : Message :=
  ⟨some "m2", ⟨"assistant", none⟩, some (.multimodalText (some [.imagePart (some "p2")])),
   MsgMetadata.empty, "all", some 2⟩

def convSkipped : Conversation := ⟨"c", "t", [⟨some msgToTool⟩, ⟨some msgNormal⟩]⟩

/-- Two messages by the same author role, each holding one image. -/
def msgImgA : Message :=
  ⟨some "m1", ⟨"assistant", none⟩,
   some (.multimodalText (some [.imagePart (some "http://x/a.png")])),
   MsgMetadata.empty, "all", some 1⟩

def msgImgB : Message :=
  ⟨some "m2", ⟨"assistant", none⟩,
   some (.multimodalText (some [.imagePart (some "http://x/b.png")])),
   MsgMetadata.empty, "all", some 2⟩

def convTwoImages : Conversation := ⟨"c", "t", [⟨some msgImgA⟩, ⟨some msgImgB⟩]⟩

def citeSourceName : Citation := ⟨some 3, some "SourceName"⟩

def metaSourceName : MsgMetadata := ⟨none, some [citeSourceName], none⟩

def assistantNoMeta : Message :=
  ⟨none, ⟨"assistant", none⟩, none, MsgMetadata.empty, "all", none⟩

-- ===========================================================================
-- Claim C1: Promise.all restores extraction order
-- ===========================================================================

theorem foldl_set_getElem {α : Type} (f : Nat → α) :
    ∀ (order : List Nat) (acc : List (Option α)), (∀ o ∈ order, o < acc.length) →
      ∀ j, (order.foldl (fun a i => a.set i (some (f i))) acc)[j]? =
        if j ∈ order then some (some (f j)) else acc[j]?
  | [], acc, _, j => by simp
  | o :: rest, acc, h, j => by
    simp only [List.foldl_cons]
    rw [foldl_set_getElem f rest (acc.set o (some (f o)))
      (by intro x hx; simpa using h x (List.mem_cons_of_mem _ hx)) j]
    by_cases hjr : j ∈ rest
    · simp [hjr]
    · by_cases hjo : j = o
      · subst hjo
        simp [hjr, List.getElem?_set_self (h j (List.mem_cons_self j rest))]
      · have hne : j ∉ o :: rest := by
          intro hmem
          rcases List.mem_cons.mp hmem with h1 | h2
          · exact hjo h1
          · exact hjr h2
        simp [hjr, hne, List.getElem?_set_ne (fun hh => hjo hh.symm)]

theorem promiseAllSlots_getElem {α : Type} (f : Nat → α) (n : Nat) (order : List Nat)
    (hmem : ∀ j < n, j ∈ order) (hlt : ∀ o ∈ order, o < n) (j : Nat) (hj : j < n) :
    (promiseAllSlots f n order)[j]? = some (some (f j)) := by
  unfold promiseAllSlots
  rw [foldl_set_getElem f order (List.replicate n none) (by simpa using hlt) j]
  simp [hmem j hj]

theorem promiseAll_eq_map {α : Type} (f : Nat → α) (n : Nat) (order : List Nat)
    (hmem : ∀ j < n, j ∈ order) (hlt : ∀ o ∈ order, o < n) :
    promiseAll f n order = (List.range n).map (fun j => f j) := by
  unfold promiseAll
  have hlen : (promiseAllSlots f n order).length = n := by
    unfold promiseAllSlots
    have hfold : ∀ (ord : List Nat) (acc : List (Option α)),
        (ord.foldl (fun a i => a.set i (some (f i))) acc).length = acc.length := by
      intro ord
      induction ord with
      | nil => intro acc; rfl
      | cons o rest ih => intro acc; simp [List.foldl_cons, ih]
    simp [hfold]
  have hslots : promiseAllSlots f n order = (List.range n).map (fun j => some (f j)) := by
    apply List.ext_getElem?
    intro j
    by_cases hj : j < n
    · rw [promiseAllSlots_getElem f n order hmem hlt j hj,
        List.getElem?_map, List.getElem?_range hj]
      rfl
    · rw [List.getElem?_eq_none (by omega),
        List.getElem?_eq_none (by simp; omega)]
  rw [hslots, List.filterMap_map]
  have hcomp : (id ∘ fun j => some (f j)) = (some ∘ fun j => f j) := rfl
  rw [hcomp, List.filterMap_eq_map]

/-- C1: for every image list and every strategy, processConversationImages
returns a processed list of the same length whose i-th entry is the result
of processing the i-th extracted (url, context) pair, for every completion
order of the concurrent per-image fetches (modelled as a permutation of
the task indices). -/
theorem processConversationImages_ordered (strategy : ImageHandlingStrategy)
    (env : ExportEnv) (images : List (String × ImageContext)) (order : List Nat)
    (hperm : order.Perm (List.range images.length)) :
    (processConversationImages strategy env images order).processedImages.length =
        images.length ∧
      ∀ i, i < images.length →
        (processConversationImages strategy env images order).processedImages[i]? =
          images[i]?.map (fun uc => processImageFor strategy env uc.1 uc.2) := by
  have hmem : ∀ j < images.length, j ∈ order := by
    intro j hj
    rw [hperm.mem_iff]
    simpa using hj
  have hlt : ∀ o ∈ order, o < images.length := by
    intro o ho
    have := hperm.mem_iff.mp ho
    simpa using this
  have hmap : (processConversationImages strategy env images order).processedImages =
      (List.range images.length).map (fun j => processOneImage strategy env images j) := by
    show promiseAll (processOneImage strategy env images) images.length order = _
    exact promiseAll_eq_map _ _ _ hmem hlt
  constructor
  · rw [hmap]; simp
  · intro i hi
    rw [hmap, List.getElem?_map, List.getElem?_range hi]
    simp only [Option.map_some']
    rw [List.getElem?_eq_getElem hi]
    simp only [Option.map_some']
    unfold processOneImage
    rw [List.get?_eq_getElem?, List.getElem?_eq_getElem hi]
    rcases images[i] with ⟨url, ctx⟩
    rfl

/-- Witness for C1 at a concrete two-image list and the reversed
completion order. -/
theorem processConversationImages_ordered_witness :
    ([1, 0] : List Nat).Perm (List.range 2) ∧
      ((processConversationImages .embedBase64
          ⟨fun _ => some "data:image/png;base64,AAAA", 7, "iso", none⟩
          [("u1", dummyImageContext), ("u2", dummyImageContext)] [1, 0]).processedImages.length =
          ([("u1", dummyImageContext), ("u2", dummyImageContext)] :
            List (String × ImageContext)).length ∧
        ∀ i, i < ([("u1", dummyImageContext), ("u2", dummyImageContext)] :
            List (String × ImageContext)).length →
          (processConversationImages .embedBase64
            ⟨fun _ => some "data:image/png;base64,AAAA", 7, "iso", none⟩
            [("u1", dummyImageContext), ("u2", dummyImageContext)] [1, 0]).processedImages[i]? =
            ([("u1", dummyImageContext), ("u2", dummyImageContext)] :
              List (String × ImageContext))[i]?.map
              (fun uc => processImageFor .embedBase64
                ⟨fun _ => some "data:image/png;base64,AAAA", 7, "iso", none⟩ uc.1 uc.2)) :=
  ⟨by decide,
    processConversationImages_ordered .embedBase64
      ⟨fun _ => some "data:image/png;base64,AAAA", 7, "iso", none⟩
      [("u1", dummyImageContext), ("u2", dummyImageContext)] [1, 0] (by decide)⟩

-- ===========================================================================
-- Claim C4: a failed fetch degrades to the failure marker without
-- aborting, shrinking or shifting the batch
-- ===========================================================================

theorem embedBase64_fetch_failure (env : ExportEnv) (url : String) (ctx : ImageContext)
    (h : env.fetchB64 url = none) :
    embedBase64ProcessImage env url ctx =
      failedProcessedImage (generateImageId env ctx) (getMimeType url) url ctx := by
  unfold embedBase64ProcessImage
  rw [h]

theorem separateFiles_fetch_failure (env : ExportEnv) (url : String) (ctx : ImageContext)
    (h : env.fetchB64 url = none) :
    separateFilesProcessImage env url ctx =
      failedProcessedImage (generateImageId env ctx) (getMimeType url) url ctx := by
  unfold separateFilesProcessImage
  rw [h]

/-- C4: if the fetch of the i-th image fails, processConversationImages
still resolves with a full-length list; the i-th ProcessedImage carries
the literal failure marker as its content; every other position holds its
own unshifted processing result; and the renderer emits the failure marker
at that image's position. -/
theorem processConversationImages_failure_marker (strategy : ImageHandlingStrategy)
    (env : ExportEnv) (images : List (String × ImageContext)) (order : List Nat)
    (i : Nat) (url : String) (ctx : ImageContext)
    (hstrat : strategy = .embedBase64 ∨ strategy = .separateFiles)
    (hperm : order.Perm (List.range images.length))
    (hi : i < images.length)
    (himg : images[i]? = some (url, ctx))
    (hfail : env.fetchB64 url = none) :
    (processConversationImages strategy env images order).processedImages.length =
        images.length ∧
      (∃ p, (processConversationImages strategy env images order).processedImages[i]? =
          some p ∧ p.content = "[Image Processing Failed]") ∧
      (∀ j, j < images.length → j ≠ i →
        (processConversationImages strategy env images order).processedImages[j]? =
          images[j]?.map (fun uc => processImageFor strategy env uc.1 uc.2)) ∧
      transformContentMd (.multimodalText (some [.imagePart (some url)])) MsgMetadata.empty
          (fun s => s) (processConversationImages strategy env images order).processedImages i =
        "![image]([Image Processing Failed])" := by
  obtain ⟨hlen, hget⟩ := processConversationImages_ordered strategy env images order hperm
  have hfailProc : processImageFor strategy env url ctx =
      failedProcessedImage (generateImageId env ctx) (getMimeType url) url ctx := by
    rcases hstrat with h | h <;> subst h
    · exact embedBase64_fetch_failure env url ctx hfail
    · exact separateFiles_fetch_failure env url ctx hfail
  have hmark : (processConversationImages strategy env images order).processedImages[i]? =
      some (failedProcessedImage (generateImageId env ctx) (getMimeType url) url ctx) := by
    rw [hget i hi, himg, Option.map_some', hfailProc]
  refine ⟨hlen, ⟨_, hmark, rfl⟩, fun j hj _ => hget j hj, ?_⟩
  unfold transformContentMd
  simp only [Option.getD_some, List.enum]
  have harith : i + 0 = i := Nat.add_zero i
  simp [hmark, harith, failedProcessedImage]
  rfl

/-- Witness for C4: the second of two images fails to fetch; the theorem
applies, and the renderer fragment for it is the failure marker. -/
theorem processConversationImages_failure_marker_witness :
    envBadSecond.fetchB64 "bad" = none ∧
      imagesW[1]? = some ("bad", dummyImageContext) ∧
      transformContentMd (.multimodalText (some [.imagePart (some "bad")])) MsgMetadata.empty
          (fun s => s)
          (processConversationImages .embedBase64 envBadSecond imagesW [1, 0]).processedImages 1 =
        "![image]([Image Processing Failed])" :=
  ⟨rfl, by decide,
    (processConversationImages_failure_marker .embedBase64 envBadSecond imagesW [1, 0] 1 "bad"
      dummyImageContext (Or.inl rfl) (by decide) (by decide) (by decide) rfl).2.2.2⟩

-- ===========================================================================
-- Decimal printing facts about `toString (n : Nat)` (needed for the
-- sentinel tokens and the collision counters)
-- ===========================================================================

theorem digitsToNat_foldl (l : List Char) : ∀ init : Nat,
    l.foldl (fun acc c => acc * 10 + (c.toNat - '0'.toNat)) init =
      init * 10 ^ l.length + digitsToNat l := by
  induction l with
  | nil => intro init; simp [digitsToNat]
  | cons c t ih =>
    intro init
    simp only [List.foldl_cons]
    rw [ih (init * 10 + (c.toNat - '0'.toNat))]
    have ht : digitsToNat (c :: t) =
        (0 * 10 + (c.toNat - '0'.toNat)) * 10 ^ t.length + digitsToNat t := by
      show List.foldl _ 0 (c :: t) = _
      simp only [List.foldl_cons]
      rw [ih (0 * 10 + (c.toNat - '0'.toNat))]
    rw [ht]
    simp [List.length_cons, pow_succ]
    ring

theorem digitsToNat_cons (c : Char) (t : List Char) :
    digitsToNat (c :: t) = (c.toNat - '0'.toNat) * 10 ^ t.length + digitsToNat t := by
  show List.foldl _ 0 (c :: t) = _
  simp only [List.foldl_cons]
  rw [digitsToNat_foldl]
  simp

theorem digitChar_val (k : Nat) (hk : k < 10) :
    (Nat.digitChar k).toNat - '0'.toNat = k ∧ isDigitChar (Nat.digitChar k) = true := by
  interval_cases k <;> exact ⟨by decide, by decide⟩

theorem toDigitsCore_all_digits : ∀ (f n : Nat) (acc : List Char),
    (∀ c ∈ acc, isDigitChar c = true) →
    ∀ c ∈ Nat.toDigitsCore 10 f n acc, isDigitChar c = true := by
  intro f
  induction f with
  | zero => intro n acc hacc; simpa [Nat.toDigitsCore] using hacc
  | succ f ih =>
    intro n acc hacc
    simp only [Nat.toDigitsCore]
    have hcons : ∀ c ∈ Nat.digitChar (n % 10) :: acc, isDigitChar c = true := by
      intro c hc
      rcases List.mem_cons.mp hc with rfl | hmem
      · exact (digitChar_val (n % 10) (Nat.mod_lt _ (by omega))).2
      · exact hacc c hmem
    by_cases h : n / 10 = 0
    · simpa [h] using hcons
    · simpa [h] using ih (n / 10) (Nat.digitChar (n % 10) :: acc) hcons

theorem toDigitsCore_val : ∀ (f n : Nat), n < 10 ^ f → ∀ acc : List Char,
    digitsToNat (Nat.toDigitsCore 10 f n acc) = n * 10 ^ acc.length + digitsToNat acc := by
  intro f
  induction f with
  | zero =>
    intro n hn acc
    have hz : n = 0 := by simpa using hn
    subst hz
    simp [Nat.toDigitsCore]
  | succ f ih =>
    intro n hn acc
    have hd := (digitChar_val (n % 10) (Nat.mod_lt _ (by omega))).1
    simp only [Nat.toDigitsCore]
    by_cases h : n / 10 = 0
    · simp only [h, if_true]
      rw [digitsToNat_cons, hd]
      have : n % 10 = n := by omega
      rw [this]
    · simp only [h, if_false]
      have hlt : n / 10 < 10 ^ f := by
        have hp : (10 : Nat) ^ (f + 1) = 10 ^ f * 10 := pow_succ 10 f
        omega
      have hn10 : n / 10 * 10 + n % 10 = n := by omega
      calc digitsToNat (Nat.toDigitsCore 10 f (n / 10) (Nat.digitChar (n % 10) :: acc))
          = n / 10 * 10 ^ (Nat.digitChar (n % 10) :: acc).length +
              digitsToNat (Nat.digitChar (n % 10) :: acc) := ih (n / 10) hlt _
        _ = n / 10 * (10 ^ acc.length * 10) +
              ((n % 10) * 10 ^ acc.length + digitsToNat acc) := by
              rw [digitsToNat_cons, hd, List.length_cons, pow_succ]
        _ = (n / 10 * 10 + n % 10) * 10 ^ acc.length + digitsToNat acc := by ring
        _ = n * 10 ^ acc.length + digitsToNat acc := by rw [hn10]

theorem toDigitsCore_length_ge : ∀ (f n : Nat) (acc : List Char),
    acc.length ≤ (Nat.toDigitsCore 10 f n acc).length := by
  intro f
  induction f with
  | zero => intro n acc; simp [Nat.toDigitsCore]
  | succ f ih =>
    intro n acc
    simp only [Nat.toDigitsCore]
    by_cases h : n / 10 = 0
    · simp [h]
    · simp only [h, if_false]
      have := ih (n / 10) (Nat.digitChar (n % 10) :: acc)
      simp only [List.length_cons] at this
      omega

theorem toString_nat_data (n : Nat) :
    (toString n).data = Nat.toDigitsCore 10 (n + 1) n [] := rfl

theorem nat_lt_ten_pow (n : Nat) : n < 10 ^ (n + 1) := by
  calc n < n + 1 := Nat.lt_succ_self n
    _ ≤ 10 ^ (n + 1) := le_of_lt (Nat.lt_pow_self (show (1 : Nat) < 10 by norm_num) (n + 1))

theorem digitsToNat_toString (n : Nat) : digitsToNat (toString n).data = n := by
  rw [toString_nat_data]
  have h := toDigitsCore_val (n + 1) n (nat_lt_ten_pow n) []
  simpa [digitsToNat] using h

theorem toString_nat_digits (n : Nat) : ∀ c ∈ (toString n).data, isDigitChar c = true := by
  rw [toString_nat_data]
  exact toDigitsCore_all_digits (n + 1) n [] (by simp)

theorem toString_nat_ne_nil (n : Nat) : (toString n).data ≠ [] := by
  rw [toString_nat_data]
  simp only [Nat.toDigitsCore]
  by_cases h : n / 10 = 0
  · simp [h]
  · simp only [h, if_false]
    intro hnil
    have := toDigitsCore_length_ge n (n / 10) (Nat.digitChar (n % 10) :: [])
    rw [hnil] at this
    simp at this

theorem toString_nat_inj {a b : Nat} (h : toString a = toString b) : a = b := by
  have := congrArg (fun s => digitsToNat s.data) h
  simpa [digitsToNat_toString] using this

theorem isDigitChar_ne_box {c : Char} (h : isDigitChar c = true) : c ≠ '╬' := by
  intro hc
  subst hc
  exact absurd h (by decide)

-- ===========================================================================
-- Claim C9: batch-export collision counters
-- ===========================================================================

theorem lookup_cons_str (k2 k0 : String) (v0 : Nat) (rest : List (String × Nat)) :
    List.lookup k2 ((k0, v0) :: rest) = if k2 = k0 then some v0 else rest.lookup k2 := by
  by_cases h : k2 = k0
  · subst h
    simp [List.lookup]
  · rw [List.lookup, beq_eq_false_iff_ne.mpr h, if_neg h]

theorem mapSet_lookup (m : List (String × Nat)) (k : String) (v : Nat) (k2 : String) :
    (mapSet m k v).lookup k2 = if k2 = k then some v else m.lookup k2 := by
  induction m with
  | nil =>
    rw [show mapSet [] k v = [(k, v)] from rfl, lookup_cons_str]
  | cons kv rest ih =>
    rcases kv with ⟨k0, v0⟩
    simp only [mapSet]
    by_cases h0 : k0 = k
    · subst h0
      rw [if_pos rfl, lookup_cons_str, lookup_cons_str]
      by_cases h2 : k2 = k0 <;> simp [h2]
    · rw [if_neg h0, lookup_cons_str, lookup_cons_str]
      by_cases h2 : k2 = k0
      · have hk : ¬ k2 = k := by
          intro hh
          exact h0 (h2 ▸ hh ▸ rfl)
        simp [h2, hk, h0]
      · simp [h2, ih]

theorem dedupFileNames_spec (extLen : Nat) (ext : String) :
    ∀ (names : List String) (fmap : List (String × Nat)) (processed : List String),
      (∀ k2, fmap.lookup k2 =
        if 0 < processed.count k2 then some (processed.count k2) else none) →
      ∀ j n, names[j]? = some n →
        (dedupFileNames extLen ext fmap names)[j]? =
          some (mangleName extLen ext n (processed.count n + (names.take j).count n)) := by
  intro names
  induction names with
  | nil =>
    intro fmap processed hinv j n hj
    simp at hj
  | cons name rest ih =>
    intro fmap processed hinv j n hj
    have hupd : ∀ k2, (mapSet fmap name (processed.count name + 1)).lookup k2 =
        if 0 < (processed ++ [name]).count k2 then some ((processed ++ [name]).count k2)
        else none := by
      intro k2
      rw [mapSet_lookup]
      by_cases hk : k2 = name
      · subst hk
        simp [List.count_append, List.count_cons]
      · rw [if_neg hk, hinv k2]
        have : (processed ++ [name]).count k2 = processed.count k2 := by
          simp [List.count_append, List.count_cons, hk]
        rw [this]
    rcases j with _ | j
    · simp only [List.getElem?_cons_zero, Option.some.injEq] at hj
      subst hj
      simp only [List.take_zero, List.count_nil, Nat.add_zero]
      unfold dedupFileNames
      rw [hinv name]
      by_cases hc : 0 < processed.count name
      · rw [if_pos hc]
        simp only [List.getElem?_cons_zero, Option.some.injEq]
        unfold mangleName
        rw [if_neg (by omega)]
      · rw [if_neg hc]
        simp only [List.getElem?_cons_zero, Option.some.injEq]
        unfold mangleName
        rw [if_pos (by omega)]
    · have hjr : rest[j]? = some n := by simpa using hj
      have hcount : (processed ++ [name]).count n + (rest.take j).count n =
          processed.count n + ((name :: rest).take (j + 1)).count n := by
        rw [List.take_succ_cons]
        by_cases hn : n = name
        · simp only [List.count_append, List.count_cons, hn]
          simp
          omega
        · simp [List.count_append, List.count_cons, hn]
      unfold dedupFileNames
      rw [hinv name]
      by_cases hc : 0 < processed.count name
      · rw [if_pos hc]
        simp only [List.getElem?_cons_succ]
        rw [ih (mapSet fmap name (processed.count name + 1)) (processed ++ [name]) hupd j n hjr,
          hcount]
      · rw [if_neg hc]
        simp only [List.getElem?_cons_succ]
        have hc0 : processed.count name = 0 := by omega
        rw [hc0] at hupd
        simp only [Nat.zero_add] at hupd
        rw [ih (mapSet fmap name 1) (processed ++ [name]) hupd j n hjr, hcount]

theorem jsSliceNeg_append_ext (p ext : String) : jsSliceNeg ext.data.length (p ++ ext) = p := by
  obtain ⟨pd⟩ := p
  unfold jsSliceNeg
  have hdata : (String.mk pd ++ ext).data = pd ++ ext.data :=
    String.data_append (String.mk pd) ext
  rw [hdata]
  have hlen : (pd ++ ext.data).length = pd.length + ext.data.length := by simp
  rw [hlen]
  have harith : pd.length + ext.data.length - ext.data.length = pd.length := by omega
  rw [harith, List.take_left]

theorem string_eq_of_data_eq {a b : String} (h : a.data = b.data) : a = b := by
  obtain ⟨ad⟩ := a
  obtain ⟨bd⟩ := b
  exact congrArg String.mk (by simpa using h)

theorem mangleName_ne_of_lt (p : String) (c1 c2 : Nat) (h : c1 < c2) :
    mangleName 3 ".md" (p ++ ".md") c1 ≠ mangleName 3 ".md" (p ++ ".md") c2 := by
  have hslice : jsSliceNeg 3 (p ++ ".md") = p := by
    have := jsSliceNeg_append_ext p ".md"
    simpa using this
  unfold mangleName
  rw [if_neg (by omega : ¬ c2 = 0), hslice]
  by_cases h1 : c1 = 0
  · rw [if_pos h1]
    intro heq
    have hlen := congrArg (fun s => s.data.length) heq
    have hr := toString_nat_ne_nil c2
    have hrpos : 0 < (toString c2).data.length := List.length_pos.mpr hr
    have e1 : (" (" : String).data.length = 2 := rfl
    have e2 : (")" : String).data.length = 1 := rfl
    have e3 : (".md" : String).data.length = 3 := rfl
    simp only [String.data_append, List.length_append] at hlen
    omega
  · rw [if_neg h1]
    intro heq
    have hdata := congrArg String.data heq
    simp only [String.data_append, List.append_assoc] at hdata
    have h2 := List.append_cancel_left hdata
    have h3 := List.append_cancel_left h2
    have h4 := List.append_cancel_right h3
    have h5 : toString c1 = toString c2 :=
      string_eq_of_data_eq h4
    exact absurd (toString_nat_inj h5) (by omega)

theorem count_take_lt (names : List String) (n : String) (i j : Nat) (hij : i < j)
    (hi : names[i]? = some n) :
    (names.take i).count n < (names.take j).count n := by
  have hilen : i < names.length := by
    by_contra hc
    rw [List.getElem?_eq_none (by omega)] at hi
    exact Option.noConfusion hi
  have hsplit : names.take j = names.take i ++ (names.take j).drop i := by
    conv_lhs => rw [← List.take_append_drop i (names.take j)]
    rw [List.take_take, min_eq_left (le_of_lt hij)]
  rw [hsplit, List.count_append]
  have hdrop : ((names.take j).drop i)[0]? = some n := by
    rw [List.getElem?_drop, Nat.add_zero, List.getElem?_take, if_pos hij]
    exact hi
  rcases hde : (names.take j).drop i with _ | ⟨a, t⟩
  · rw [hde] at hdrop
    simp at hdrop
  · rw [hde] at hdrop
    simp only [List.getElem?_cons_zero, Option.some.injEq] at hdrop
    subst hdrop
    rw [List.count_cons]
    simp

/-- C9: in batch export, the j-th conversation's document name is its
computed name when it is the first with that name, and otherwise the name
with " (c)" spliced in before the ".md" extension, where c counts the
previous conversations that computed the same name — so the second
collision gets " (1)", a third " (2)", and no two entries derived from
the same collision coincide. -/
theorem exportAllToMarkdown_fileNames (names : List String)
    (hext : ∀ n ∈ names, ∃ p, n = p ++ ".md") :
    (∀ j n, names[j]? = some n →
      (exportAllFileNamesMd names)[j]? =
        some (mangleName 3 ".md" n ((names.take j).count n))) ∧
    ∀ (i j : Nat) (n : String), i < j → names[i]? = some n → names[j]? = some n →
      ∀ a b, (exportAllFileNamesMd names)[i]? = some a →
        (exportAllFileNamesMd names)[j]? = some b → a ≠ b := by
  have hchar : ∀ j n, names[j]? = some n →
      (exportAllFileNamesMd names)[j]? =
        some (mangleName 3 ".md" n ((names.take j).count n)) := by
    intro j n hj
    have h := dedupFileNames_spec 3 ".md" names [] [] (by intro k2; simp [List.lookup]) j n hj
    simpa [exportAllFileNamesMd] using h
  refine ⟨hchar, ?_⟩
  intro i j n hij hi hj a b ha hb
  rw [hchar i n hi] at ha
  rw [hchar j n hj] at hb
  have ha2 := Option.some.inj ha
  have hb2 := Option.some.inj hb
  subst ha2
  subst hb2
  obtain ⟨p, rfl⟩ := hext n (List.getElem?_mem hi)
  exact mangleName_ne_of_lt p _ _ (count_take_lt names _ i j hij hi)

/-- Witness for C9: three conversations computing "a.md" receive
"a.md", "a (1).md" and "a (2).md". -/
theorem exportAllToMarkdown_fileNames_witness :
    (∀ n ∈ ["a.md", "a.md", "a.md", "b.md"], ∃ p, n = p ++ ".md") ∧
      (exportAllFileNamesMd ["a.md", "a.md", "a.md", "b.md"])[1]? =
        some (mangleName 3 ".md" "a.md" ((["a.md", "a.md", "a.md", "b.md"].take 1).count "a.md")) ∧
      (exportAllFileNamesMd ["a.md", "a.md", "a.md", "b.md"])[2]? =
        some (mangleName 3 ".md" "a.md" ((["a.md", "a.md", "a.md", "b.md"].take 2).count "a.md")) := by
  have hext : ∀ n ∈ ["a.md", "a.md", "a.md", "b.md"], ∃ p, n = p ++ ".md" := by
    intro n hn
    rcases List.mem_cons.mp hn with rfl | hn
    · exact ⟨"a", rfl⟩
    rcases List.mem_cons.mp hn with rfl | hn
    · exact ⟨"a", rfl⟩
    rcases List.mem_cons.mp hn with rfl | hn
    · exact ⟨"a", rfl⟩
    rcases List.mem_cons.mp hn with rfl | hn
    · exact ⟨"b", rfl⟩
    · simp at hn
  refine ⟨hext, ?_, ?_⟩
  · exact (exportAllToMarkdown_fileNames ["a.md", "a.md", "a.md", "b.md"] hext).1 1 "a.md"
      (by decide)
  · exact (exportAllToMarkdown_fileNames ["a.md", "a.md", "a.md", "b.md"] hext).1 2 "a.md"
      (by decide)

-- ===========================================================================
-- Claim C10: separate-files names ignore the message identity and collide
-- ===========================================================================

/-- C10: the separate-files file name is a function of the owning author
(role/name), the per-message image index and the extension only — not of
the message id or the global index — and consequently a conversation with
two single-image messages by the same author yields two ExportFile
entries with the identical relative path "images/chatgpt-response-000.png"
in the archive. -/
theorem separateFiles_fileName_collision :
    (∀ (ctx1 ctx2 : ImageContext) (ext : String), ctx1.author = ctx2.author →
      ctx1.imageIndex = ctx2.imageIndex →
      generateImageFileName ctx1 ext = generateImageFileName ctx2 ext) ∧
    (processConversationImages .separateFiles envAllOk
        (extractImagesFromConversationMd convTwoImages) [0, 1]).files.map
        (fun fs => fs.map ExportFile.path) =
      some ["images/chatgpt-response-000.png", "images/chatgpt-response-000.png"] := by
  constructor
  · intro ctx1 ctx2 ext ha hi
    unfold generateImageFileName
    rw [ha, hi]
  · decide

/-- Witness for C10's congruence conjunct at two contexts that differ in
message id and url but share author and per-message index. -/
theorem separateFiles_fileName_collision_witness :
    (⟨"c", "m1", 0, "image/png", "u1", "multimodal_text", some ⟨"assistant", none⟩,
        some 1⟩ : ImageContext).author =
      (⟨"c", "m2", 0, "image/png", "u2", "multimodal_text", some ⟨"assistant", none⟩,
        some 2⟩ : ImageContext).author ∧
    generateImageFileName
        ⟨"c", "m1", 0, "image/png", "u1", "multimodal_text", some ⟨"assistant", none⟩, some 1⟩
        "png" =
      generateImageFileName
        ⟨"c", "m2", 0, "image/png", "u2", "multimodal_text", some ⟨"assistant", none⟩, some 2⟩
        "png" :=
  ⟨rfl,
    separateFiles_fileName_collision.1
      ⟨"c", "m1", 0, "image/png", "u1", "multimodal_text", some ⟨"assistant", none⟩, some 1⟩
      ⟨"c", "m2", 0, "image/png", "u2", "multimodal_text", some ⟨"assistant", none⟩, some 2⟩
      "png" rfl rfl⟩

-- ===========================================================================
-- Claim C3: the two extractors agree only up to present-but-empty
-- asset pointers (corrected)
-- ===========================================================================

/-- Counterexample to C3 as stated: on a conversation whose image part has
a present but empty asset_pointer the Markdown extractor skips the image
(truthiness test) while the HTML extractor keeps it (key-presence test). -/
theorem extractors_differ_on_empty_pointer :
    extractImagesFromConversationMd convEmptyPtr ≠
      extractImagesFromConversationHtml convEmptyPtr := by
  decide

theorem filterMap_ptr_eq : ∀ ps : List MultiPart, ps.all partPtrNotEmpty = true →
    ps.filterMap (fun part =>
      match part with
      | MultiPart.imagePart (some p) => if p ≠ "" then some p else none
      | _ => none) =
    ps.filterMap (fun part =>
      match part with
      | MultiPart.imagePart (some p) => some p
      | _ => none)
  | [], _ => rfl
  | q :: qs, h => by
    simp only [List.all_cons, Bool.and_eq_true] at h
    have hqs := filterMap_ptr_eq qs h.2
    rcases q with s | ptr | tx2 | _ | _ | _
    · simpa [List.filterMap_cons] using hqs
    · rcases ptr with _ | pv
      · simpa [List.filterMap_cons] using hqs
      · have hne : pv ≠ "" := by simpa [partPtrNotEmpty] using h.1
        simp only [List.filterMap_cons]
        rw [if_pos hne]
        rw [hqs]
    · simpa [List.filterMap_cons] using hqs
    · simpa [List.filterMap_cons] using hqs
    · simpa [List.filterMap_cons] using hqs
    · simpa [List.filterMap_cons] using hqs

/-- C3 (amended): the Markdown and HTML extractors return the same ordered
(url, context) list for every conversation in which no image part has a
present-but-empty asset pointer. -/
theorem extractors_agree (c : Conversation)
    (h : ∀ node ∈ c.conversationNodes, ∀ m, node.message = some m →
      ∀ ps, m.content = some (.multimodalText (some ps)) → ps.all partPtrNotEmpty = true) :
    extractImagesFromConversationMd c = extractImagesFromConversationHtml c := by
  unfold extractImagesFromConversationMd extractImagesFromConversationHtml
  have hmsg : ∀ node ∈ c.conversationNodes, ∀ ni m, node.message = some m →
      extractFromMessageMd c.id ni m = extractFromMessageHtml c.id ni m := by
    intro node hnode ni m hm
    unfold extractFromMessageMd extractFromMessageHtml
    rcases hc : m.content with _ | cont
    · rfl
    rcases cont with p1 | t | t | ⟨⟩ | _ | _ | parts | ct
    · rfl
    · rfl
    · rfl
    · rfl
    · rfl
    · rfl
    · rcases parts with _ | ps
      · rfl
      · have hps := h node hnode m hm ps (by rw [hc])
        show List.map _ ((ps.filterMap (fun part =>
            match part with
            | MultiPart.imagePart (some p) => if p ≠ "" then some p else none
            | _ => none)).enum) = List.map _ ((ps.filterMap (fun part =>
            match part with
            | MultiPart.imagePart (some p) => some p
            | _ => none)).enum)
        rw [filterMap_ptr_eq ps hps]
    · rfl
  have hgen : ∀ (nodes : List ConversationNode), (∀ node ∈ nodes, ∀ ni m,
      node.message = some m → extractFromMessageMd c.id ni m = extractFromMessageHtml c.id ni m) →
      ∀ ni, extractNodes extractFromMessageMd c.id ni nodes =
        extractNodes extractFromMessageHtml c.id ni nodes := by
    intro nodes
    induction nodes with
    | nil => intro _ _; rfl
    | cons node rest ihn =>
      intro hall ni
      have hrec := ihn (fun nd hnd => hall nd (List.mem_cons_of_mem _ hnd))
      rcases node with ⟨_ | m⟩
      · simp only [extractNodes]
        exact hrec (ni + 1)
      · simp only [extractNodes]
        rw [hrec (ni + 1), hall ⟨some m⟩ (List.mem_cons_self _ _) ni m rfl]
  exact hgen c.conversationNodes hmsg 0

/-- Witness for C3 (amended) at a concrete two-image conversation with
nonempty pointers. -/
theorem extractors_agree_witness :
    extractImagesFromConversationMd convTwoImages =
      extractImagesFromConversationHtml convTwoImages :=
  extractors_agree convTwoImages (by
    intro node hnode m hm ps hps
    have hnodes : node = ⟨some msgImgA⟩ ∨ node = ⟨some msgImgB⟩ := by
      simpa [convTwoImages] using hnode
    rcases hnodes with rfl | rfl
    · have hm2 : msgImgA = m := Option.some.inj hm
      subst hm2
      have hps2 : [MultiPart.imagePart (some "http://x/a.png")] = ps := by
        have h3 := hps
        simp [msgImgA] at h3
        exact h3
      subst hps2
      decide
    · have hm2 : msgImgB = m := Option.some.inj hm
      subst hm2
      have hps2 : [MultiPart.imagePart (some "http://x/b.png")] = ps := by
        have h3 := hps
        simp [msgImgB] at h3
        exact h3
      subst hps2
      decide)

-- ===========================================================================
-- Claim C2: the renderer's running counter versus extraction (corrected)
-- ===========================================================================

theorem len_filterMap_eq_filter {α β : Type} (f : α → Option β) (p : α → Bool) :
    ∀ l : List α, (∀ a ∈ l, (f a).isSome = p a) →
      (l.filterMap f).length = (l.filter p).length := by
  intro l
  induction l with
  | nil => intro _; rfl
  | cons a t ih =>
    intro h
    have ha := h a (List.mem_cons_self a t)
    have ht := ih (fun x hx => h x (List.mem_cons_of_mem _ hx))
    rcases hfa : f a with _ | b
    · rw [hfa] at ha
      simp only [Option.isSome_none] at ha
      simp [List.filterMap_cons, hfa, List.filter_cons, ← ha, ht]
    · rw [hfa] at ha
      simp only [Option.isSome_some] at ha
      simp [List.filterMap_cons, hfa, List.filter_cons, ← ha, ht]

theorem extractFromMessageMd_length (cid : String) (ni : Nat) (m : Message)
    (hg : goodImageUrls m = true) :
    (extractFromMessageMd cid ni m).length = countImagesInMessage m := by
  unfold goodImageUrls at hg
  rw [Bool.and_eq_true] at hg
  obtain ⟨hagg, hmm⟩ := hg
  unfold extractFromMessageMd countImagesInMessage
  rcases hc : m.content with _ | cont
  · rfl
  rcases cont with p1 | t | t | ⟨⟩ | _ | _ | parts | ct
  · rfl
  · rfl
  · -- execution_output
    rcases ha : m.metadata.aggregateMessages with _ | msgs
    · rfl
    · rw [ha] at hagg
      show ((msgs.filterMap (fun msg =>
          match msg.image_url with
          | some u => if msg.message_type = "image" ∧ u ≠ "" then some u else none
          | none => none)).enum.map _).length =
        (msgs.filter (fun msg => msg.message_type = "image")).length
      rw [List.length_map, List.enum_length]
      apply len_filterMap_eq_filter
      intro msg hmsg
      have hok : aggUrlOk msg = true := by
        rw [List.all_eq_true] at hagg
        exact hagg msg hmsg
      unfold aggUrlOk at hok
      by_cases ht : msg.message_type = "image"
      · rw [if_pos ht] at hok
        rcases hu : msg.image_url with _ | u
        · rw [hu] at hok; exact absurd hok (by simp)
        · rw [hu] at hok
          simp only [decide_eq_true_eq] at hok
          simp [hu, ht, hok]
      · rcases hu : msg.image_url with _ | u
        · simp [hu, ht]
        · simp [hu, ht]
  · rfl
  · rfl
  · rfl
  · -- multimodal_text
    rw [hc] at hmm
    rcases parts with _ | ps
    · rfl
    · show ((ps.filterMap (fun part =>
          match part with
          | MultiPart.imagePart (some p) => if p ≠ "" then some p else none
          | _ => none)).enum.map _).length =
        (ps.filter (fun part =>
          match part with
          | MultiPart.imagePart _ => true
          | _ => false)).length
      rw [List.length_map, List.enum_length]
      apply len_filterMap_eq_filter
      intro part hpart
      have hok : partPtrOk part = true := by
        rw [List.all_eq_true] at hmm
        exact hmm part hpart
      rcases part with s | ptr | tx2 | _ | _ | _
      · rfl
      · rcases ptr with _ | pv
        · exact absurd hok (by simp [partPtrOk])
        · have hne : pv ≠ "" := by simpa [partPtrOk] using hok
          simp [hne]
      · rfl
      · rfl
      · rfl
      · rfl
  · rfl

theorem countImagesInMessage_exec (m : Message) (t : String)
    (hc : m.content = some (.executionOutput t)) :
    countImagesInMessage m = (match m.metadata.aggregateMessages with
      | none => 0
      | some msgs => (msgs.filter (fun msg => msg.message_type = "image")).length) := by
  unfold countImagesInMessage
  rw [hc]

theorem toolKeeps_exec (m : Message) (t : String)
    (hc : m.content = some (.executionOutput t)) :
    toolKeeps m = (match m.metadata.aggregateMessages with
      | some msgs => msgs.any (fun msg => msg.message_type = "image")
      | none => false) := by
  unfold toolKeeps
  rw [hc]

theorem toolKeeps_mm (m : Message) (parts : Option (List MultiPart))
    (hc : m.content = some (.multimodalText parts)) : toolKeeps m = true := by
  unfold toolKeeps
  rw [hc]

theorem skipped_message_count_zero (m : Message)
    (hrecip : countImagesInMessage m ≠ 0 → m.recipient = "all")
    (hr : messageRendered m = false) : countImagesInMessage m = 0 := by
  by_contra hc
  have hall := hrecip hc
  apply absurd hr
  rw [Bool.not_eq_false]
  unfold messageRendered
  have hrec : (m.recipient == "all") = true := by
    rw [beq_iff_eq]; exact hall
  rw [hrec]
  rcases hcont : m.content with _ | cont
  · refine absurd ?_ hc
    unfold countImagesInMessage
    rw [hcont]
  simp only [Option.isSome_some, Bool.true_and, Bool.and_true]
  by_cases hrole : m.author.role = "tool"
  · have hkeep : toolKeeps m = true := by
      rcases cont with p1 | t | t | ⟨⟩ | _ | _ | parts | ct
      · exact absurd (by unfold countImagesInMessage; rw [hcont]) hc
      · exact absurd (by unfold countImagesInMessage; rw [hcont]) hc
      · rw [toolKeeps_exec m t hcont]
        rw [countImagesInMessage_exec m t hcont] at hc
        rcases hagg : m.metadata.aggregateMessages with _ | msgs
        · rw [hagg] at hc
          exact absurd rfl hc
        · rw [hagg] at hc
          have hne : (msgs.filter (fun msg => msg.message_type = "image")) ≠ [] := by
            intro hnil
            apply hc
            show (msgs.filter (fun msg => msg.message_type = "image")).length = 0
            rw [hnil]
            rfl
          obtain ⟨x, hx⟩ := List.exists_mem_of_ne_nil _ hne
          have hx2 := List.mem_filter.mp hx
          exact List.any_eq_true.mpr ⟨x, hx2.1, hx2.2⟩
      · exact absurd (by unfold countImagesInMessage; rw [hcont]) hc
      · exact absurd (by unfold countImagesInMessage; rw [hcont]) hc
      · exact absurd (by unfold countImagesInMessage; rw [hcont]) hc
      · exact toolKeeps_mm m parts hcont
      · exact absurd (by unfold countImagesInMessage; rw [hcont]) hc
    simp [hkeep]
  · simp [hrole]

theorem finalImageIndex_shift : ∀ (nodes : List ConversationNode) (i : Nat),
    finalImageIndex nodes i = i + finalImageIndex nodes 0 := by
  intro nodes
  induction nodes with
  | nil => intro i; simp [finalImageIndex]
  | cons node rest ih =>
    intro i
    rcases node with ⟨_ | m⟩
    · simp only [finalImageIndex]
      exact ih i
    · simp only [finalImageIndex]
      by_cases hrb : messageRendered m = true
      · rw [if_pos hrb, if_pos hrb, ih (i + countImagesInMessage m),
          ih (0 + countImagesInMessage m)]
        omega
      · rw [if_neg hrb, if_neg hrb]
        exact ih i

theorem finalImageIndex_eq_extract (cid : String) :
    ∀ (nodes : List ConversationNode) (ni : Nat),
      (∀ node ∈ nodes, ∀ m, node.message = some m → goodImageUrls m = true) →
      (∀ node ∈ nodes, ∀ m, node.message = some m →
        countImagesInMessage m ≠ 0 → m.recipient = "all") →
      finalImageIndex nodes 0 = (extractNodes extractFromMessageMd cid ni nodes).length := by
  intro nodes
  induction nodes with
  | nil => intro ni _ _; rfl
  | cons node rest ih =>
    intro ni hgood hrecip
    have hgr := fun nd hnd => hgood nd (List.mem_cons_of_mem _ hnd)
    have hrr := fun nd hnd => hrecip nd (List.mem_cons_of_mem _ hnd)
    rcases node with ⟨_ | m⟩
    · simp only [finalImageIndex, extractNodes]
      exact ih (ni + 1) hgr hrr
    · have hx := extractFromMessageMd_length cid ni m
        (hgood ⟨some m⟩ (List.mem_cons_self _ _) m rfl)
      simp only [finalImageIndex, extractNodes, List.length_append]
      by_cases hrb : messageRendered m = true
      · rw [if_pos hrb, finalImageIndex_shift rest (0 + countImagesInMessage m),
          ih (ni + 1) hgr hrr, hx]
        omega
      · have hz : countImagesInMessage m = 0 := skipped_message_count_zero m
          (hrecip ⟨some m⟩ (List.mem_cons_self _ _) m rfl)
          (Bool.eq_false_iff.mpr hrb)
        rw [if_neg hrb, ih (ni + 1) hgr hrr, hx, hz]
        omega

theorem renderedWithIndex_append : ∀ (l1 l2 : List ConversationNode) (i : Nat),
    renderedWithIndex (l1 ++ l2) i =
      renderedWithIndex l1 i ++ renderedWithIndex l2 (finalImageIndex l1 i) := by
  intro l1
  induction l1 with
  | nil => intro l2 i; rfl
  | cons node rest ih =>
    intro l2 i
    rcases node with ⟨_ | m⟩
    · simp only [List.cons_append, renderedWithIndex, finalImageIndex, List.append_eq]
      exact ih l2 i
    · simp only [List.cons_append, renderedWithIndex, finalImageIndex, List.append_eq]
      by_cases hrb : messageRendered m = true
      · rw [if_pos hrb, if_pos hrb, if_pos hrb, ih l2 (i + countImagesInMessage m)]
        simp
      · rw [if_neg hrb, if_neg hrb, if_neg hrb]
        exact ih l2 i

/-- C2 (amended): when every image-typed aggregate entry has a nonempty
url, every image part a nonempty pointer, and every image-bearing message
is addressed to 'all', the renderer's running counter is consistent with
extraction: each rendered message receives the number of images extracted
from the preceding nodes as its imageStartIndex, and the accumulated
counts reach the global extraction count. -/
theorem imageIndex_consistent_of_good (c : Conversation)
    (hgood : ∀ node ∈ c.conversationNodes, ∀ m, node.message = some m →
      goodImageUrls m = true)
    (hrecip : ∀ node ∈ c.conversationNodes, ∀ m, node.message = some m →
      countImagesInMessage m ≠ 0 → m.recipient = "all") :
    imageIndexConsistent c := by
  constructor
  · intro j node m hj hm hr
    have hj2 : c.conversationNodes[j]? = some node := by
      rw [← List.get?_eq_getElem?]
      exact hj
    have hjlen : j < c.conversationNodes.length := by
      by_contra hcon
      rw [List.getElem?_eq_none (by omega)] at hj2
      exact Option.noConfusion hj2
    have hsplit : c.conversationNodes =
        c.conversationNodes.take j ++ node :: c.conversationNodes.drop (j + 1) := by
      conv_lhs => rw [← List.take_append_drop j c.conversationNodes]
      congr 1
      rw [List.drop_eq_getElem_cons hjlen]
      congr 1
      have := List.getElem?_eq_getElem hjlen
      rw [this] at hj2
      exact Option.some.inj hj2
    have hfi : finalImageIndex (c.conversationNodes.take j) 0 =
        (extractNodes extractFromMessageMd c.id 0 (c.conversationNodes.take j)).length :=
      finalImageIndex_eq_extract c.id _ 0
        (fun nd hnd => hgood nd (List.take_subset j _ hnd))
        (fun nd hnd => hrecip nd (List.take_subset j _ hnd))
    have heq : renderedWithIndex c.conversationNodes 0 =
        renderedWithIndex (c.conversationNodes.take j) 0 ++
          renderedWithIndex (node :: c.conversationNodes.drop (j + 1))
            (finalImageIndex (c.conversationNodes.take j) 0) := by
      conv_lhs => rw [hsplit]
      exact renderedWithIndex_append _ _ 0
    rw [heq, hfi]
    rcases node with ⟨msg⟩
    have hmsg : msg = some m := hm
    subst hmsg
    simp only [renderedWithIndex]
    rw [if_pos hr]
  · exact finalImageIndex_eq_extract c.id c.conversationNodes 0 hgood hrecip

/-- Counterexample to C2 as stated: a message addressed to a tool carrying
an image is extracted but skipped by the renderer, so the accumulated
counter (1) falls short of the extraction count (2). -/
theorem imageIndex_inconsistent_on_skipped :
    ¬ imageIndexConsistent convSkipped := by
  intro h
  have h2 := h.2
  revert h2
  decide

/-- Witness for C2 (amended) at the concrete two-image conversation. -/
theorem imageIndex_consistent_witness : imageIndexConsistent convTwoImages := by
  apply imageIndex_consistent_of_good
  · intro node hnode m hm
    have hnodes : node = ⟨some msgImgA⟩ ∨ node = ⟨some msgImgB⟩ := by
      simpa [convTwoImages] using hnode
    rcases hnodes with rfl | rfl
    · have hm2 : msgImgA = m := Option.some.inj hm
      subst hm2
      decide
    · have hm2 : msgImgB = m := Option.some.inj hm
      subst hm2
      decide
  · intro node hnode m hm _
    have hnodes : node = ⟨some msgImgA⟩ ∨ node = ⟨some msgImgB⟩ := by
      simpa [convTwoImages] using hnode
    rcases hnodes with rfl | rfl
    · have hm2 : msgImgA = m := Option.some.inj hm
      subst hm2
      rfl
    · have hm2 : msgImgB = m := Option.some.inj hm
      subst hm2
      rfl

-- ===========================================================================
-- Claim C8: which fragments pass through postProcess (corrected)
-- ===========================================================================

/-- Counterexample to C8 as stated: the tether_quote fragment is run
through postProcess (here a constant function), so the fragment depends
on it. -/
theorem tether_quote_uses_postProcess : ¬ rawFragmentsBypassPostProcess := by
  intro h
  have h2 := (h (.tetherQuote (some "T") none) MsgMetadata.empty (fun _ => "PP") [] 0
    trivial).1
  exact absurd h2 (by decide)

theorem transformContentMd_display_eq (meta : MsgMetadata) (pp : String → String)
    (imgs : List ProcessedImage) (i : Nat) :
    transformContentMd .tetherBrowsingDisplay meta pp imgs i =
      (match meta.citeMetadataList with
       | some l =>
         if l.length > 0 then
           pp (String.intercalate "\n"
             (l.map (fun tu => "> [" ++ tu.1 ++ "](" ++ tu.2 ++ ")")))
         else pp ""
       | none => pp "") := rfl

theorem transformContentHtml_display_eq (meta : MsgMetadata) (pp : String → String)
    (imgs : List ProcessedImage) (i : Nat) :
    transformContentHtml .tetherBrowsingDisplay meta pp imgs i =
      (match meta.citeMetadataList with
       | some l =>
         if l.length > 0 then
           pp (String.intercalate "\n"
             (l.map (fun tu => "> [" ++ tu.1 ++ "](" ++ tu.2 ++ ")")))
         else pp ""
       | none => pp "") := rfl

theorem transformContentMd_exec_eq (t : String) (meta : MsgMetadata) (pp : String → String)
    (imgs : List ProcessedImage) (i : Nat) :
    transformContentMd (.executionOutput t) meta pp imgs i =
      (match meta.aggregateMessages with
       | some msgs =>
         let imageMessages := msgs.filter (fun msg => msg.message_type = "image")
         if imageMessages.length > 0 then
           let imageContent := String.intercalate "\n\n" (imageMessages.enum.map (fun p =>
             let globalIndex := i + p.1
             match imgs.get? globalIndex with
             | some processedImage =>
               if processedImage.content ≠ "" then "![image](" ++ processedImage.content ++ ")"
               else "[IMAGE_" ++ toString globalIndex ++ "]"
             | none => "[IMAGE_" ++ toString globalIndex ++ "]"))
           pp ("Result:\n```\n" ++ t ++ "\n```" ++
             (if imageContent ≠ "" then "\n\n" ++ imageContent else ""))
         else pp ("Result:\n```\n" ++ t ++ "\n```")
       | none => pp ("Result:\n```\n" ++ t ++ "\n```")) := rfl

theorem transformContentHtml_exec_eq (t : String) (meta : MsgMetadata) (pp : String → String)
    (imgs : List ProcessedImage) (i : Nat) :
    transformContentHtml (.executionOutput t) meta pp imgs i =
      (match meta.aggregateMessages with
       | some msgs =>
         let imageMessages := msgs.filter (fun msg => msg.message_type = "image")
         if imageMessages.length > 0 then
           let imageContent := String.intercalate "\n\n" (imageMessages.enum.map (fun p =>
             let globalIndex := i + p.1
             match imgs.get? globalIndex with
             | some processedImage =>
               if processedImage.content ≠ "" then "<img src=\"" ++ processedImage.content ++ "\" />"
               else "[IMAGE_" ++ toString globalIndex ++ "]"
             | none => "[IMAGE_" ++ toString globalIndex ++ "]"))
           pp ("Result:\n```\n" ++ t ++ "\n```" ++
             (if imageContent ≠ "" then "\n\n" ++ imageContent else ""))
         else pp ("Result:\n```\n" ++ t ++ "\n```")
       | none => pp ("Result:\n```\n" ++ t ++ "\n```")) := rfl

/-- C8 (amended): only the `code` fragment bypasses postProcess; the
tether_quote and tether_browsing_display fragments, and the entire
execution_output fragment (fence included), are produced as postProcess
applied to some string, in both renderers. -/
theorem transformContent_postProcess_usage (meta : MsgMetadata) (pp : String → String)
    (imgs : List ProcessedImage) (i : Nat) :
    (∀ t, transformContentMd (.code t) meta pp imgs i = "Code:\n```\n" ++ t ++ "\n```" ∧
          transformContentHtml (.code t) meta pp imgs i = "Code:\n```\n" ++ t ++ "\n```") ∧
    (∀ ti tx, transformContentMd (.tetherQuote ti tx) meta pp imgs i =
          pp ("> " ++ jsOrElse ti (jsOrElse tx "")) ∧
        transformContentHtml (.tetherQuote ti tx) meta pp imgs i =
          pp ("> " ++ jsOrElse ti (jsOrElse tx ""))) ∧
    ((∃ s, transformContentMd .tetherBrowsingDisplay meta pp imgs i = pp s) ∧
     (∃ s, transformContentHtml .tetherBrowsingDisplay meta pp imgs i = pp s)) ∧
    (∀ t, (∃ s, transformContentMd (.executionOutput t) meta pp imgs i = pp s) ∧
          (∃ s, transformContentHtml (.executionOutput t) meta pp imgs i = pp s)) := by
  refine ⟨fun t => ⟨rfl, rfl⟩, fun ti tx => ⟨rfl, rfl⟩, ⟨?_, ?_⟩, fun t => ⟨?_, ?_⟩⟩
  · rw [transformContentMd_display_eq]
    rcases meta.citeMetadataList with _ | l
    · exact ⟨"", rfl⟩
    · by_cases hlen : l.length > 0
      · exact ⟨_, if_pos hlen⟩
      · exact ⟨_, if_neg hlen⟩
  · rw [transformContentHtml_display_eq]
    rcases meta.citeMetadataList with _ | l
    · exact ⟨"", rfl⟩
    · by_cases hlen : l.length > 0
      · exact ⟨_, if_pos hlen⟩
      · exact ⟨_, if_neg hlen⟩
  · rw [transformContentMd_exec_eq]
    rcases meta.aggregateMessages with _ | msgs
    · exact ⟨_, rfl⟩
    · by_cases hlen : (msgs.filter (fun msg => msg.message_type = "image")).length > 0
      · exact ⟨_, if_pos hlen⟩
      · exact ⟨_, if_neg hlen⟩
  · rw [transformContentHtml_exec_eq]
    rcases meta.aggregateMessages with _ | msgs
    · exact ⟨_, rfl⟩
    · by_cases hlen : (msgs.filter (fun msg => msg.message_type = "image")).length > 0
      · exact ⟨_, if_pos hlen⟩
      · exact ⟨_, if_neg hlen⟩

-- ===========================================================================
-- Claim C6: code fences and the math round trip (corrected)
-- ===========================================================================

/-- Counterexample to C6 as stated: with a fenced code block present only
the sentinel protection is skipped; the structural round trip (here a
function appending a character) is still applied, so the text is altered. -/
theorem codeFence_text_still_transformed : ¬ codeFenceLeavesTextUnchanged := by
  intro h
  have h2 := (h (fun s => s ++ "@") "```x```" (by decide)).1
  exact absurd h2 (by decide)

/-- C6 (amended): a fenced code block skips only the sentinel
protection/restore pass; the round trip `rt` is still applied to the
message text (after the unconditional delimiter normalization in the
Markdown renderer, and directly in the HTML renderer). -/
theorem codeFence_skips_protection_only (rt : String → String) (input : String)
    (hmd : strContains (normalizeMathDelims input) "```")
    (hhtml : strContains input "```") :
    mdMathStep rt input = rt (normalizeMathDelims input) ∧
    htmlMathStep rt input = rt input := by
  have hb1 : strContainsB (normalizeMathDelims input) "```" = true := by
    simpa [strContainsB] using hmd
  have hb2 : strContainsB input "```" = true := by
    simpa [strContainsB] using hhtml
  constructor
  · unfold mdMathStep
    simp [hb1]
  · unfold htmlMathStep
    simp [hb2]

/-- Witness for C6 (amended) at a concrete fenced input and a round trip
that appends a character. -/
theorem codeFence_skips_protection_only_witness :
    strContains (normalizeMathDelims "```x```") "```" ∧ strContains "```x```" "```" ∧
    (mdMathStep (fun s => s ++ "@") "```x```" =
        (fun s => s ++ "@") (normalizeMathDelims "```x```") ∧
      htmlMathStep (fun s => s ++ "@") "```x```" = "```x```@") :=
  ⟨by decide, by decide, by
    have h := codeFence_skips_protection_only (fun s => s ++ "@") "```x```"
      (by decide) (by decide)
    exact ⟨h.1, h.2⟩⟩

-- ===========================================================================
-- Claim C7: footnote markers (confirmed)
-- ===========================================================================

theorem takeWhile_all_append (p : Char → Bool) (l : List Char) (x : Char) (t : List Char)
    (hl : ∀ c ∈ l, p c = true) (hx : p x = false) :
    (l ++ x :: t).takeWhile p = l := by
  induction l with
  | nil => simp [List.takeWhile_cons, hx]
  | cons a l ih =>
    have ha : p a = true := hl a (by simp)
    simp only [List.cons_append, List.takeWhile_cons, ha, if_true]
    rw [ih (fun c hc => hl c (by simp [hc]))]

theorem dropWhile_all_append (p : Char → Bool) (l : List Char) (x : Char) (t : List Char)
    (hl : ∀ c ∈ l, p c = true) (hx : p x = false) :
    (l ++ x :: t).dropWhile p = x :: t := by
  induction l with
  | nil => simp [List.dropWhile_cons, hx]
  | cons a l ih =>
    have ha : p a = true := hl a (by simp)
    simp only [List.cons_append, List.dropWhile_cons, ha, if_true]
    exact ih (fun c hc => hl c (by simp [hc]))

theorem findCloseParen_cons (c : Char) (s : List Char) :
    findCloseParen (c :: s) =
      (if c = '\n' then none
       else if s.take 2 = [')', '】'] then some ([c], s.drop 2)
       else match findCloseParen s with
            | some (lab, r) => some (c :: lab, r)
            | none => none) := rfl

theorem hasCloseSeq_cons2 (a b : Char) (r : List Char) :
    hasCloseSeq (a :: b :: r) = ((a = ')' && b = '】') || hasCloseSeq (b :: r)) := rfl

theorem findCloseParen_label :
    ∀ (label : List Char), label ≠ [] → (∀ c ∈ label, c ≠ '\n') →
      hasCloseSeq label = false → ∀ (post : List Char),
      findCloseParen (label ++ ')' :: '】' :: post) = some (label, post)
  | [], hne, _, _, _ => absurd rfl hne
  | [a], _, hnl, _, post => by
    have ha : a ≠ '\n' := hnl a (by simp)
    rw [List.cons_append, List.nil_append, findCloseParen_cons, if_neg ha,
      if_pos (show List.take 2 (')' :: '】' :: post) = [')', '】'] from rfl)]
    rfl
  | a :: b :: t, _, hnl, hcs, post => by
    have ha : a ≠ '\n' := hnl a (by simp)
    have hb : b ≠ '\n' := hnl b (by simp)
    have htail : hasCloseSeq (b :: t) = false := by
      rw [hasCloseSeq_cons2] at hcs
      exact (Bool.or_eq_false_iff.mp hcs).2
    rcases t with _ | ⟨d, t'⟩
    · rw [List.cons_append, findCloseParen_cons, if_neg ha]
      have hc2 : ¬ (([b] ++ ')' :: '】' :: post).take 2 = [')', '】']) := by
        intro h
        rw [List.cons_append, List.nil_append, List.take_succ_cons, List.take_succ_cons,
          List.take_zero] at h
        injection h with h1 h2
        injection h2 with h3 _
        exact absurd h3 (by decide)
      rw [if_neg hc2]
      have hsub : findCloseParen ([b] ++ ')' :: '】' :: post) = some ([b], post) := by
        rw [List.cons_append, List.nil_append, findCloseParen_cons, if_neg hb,
          if_pos (show List.take 2 (')' :: '】' :: post) = [')', '】'] from rfl)]
        rfl
      rw [hsub]
    · rw [List.cons_append, findCloseParen_cons, if_neg ha]
      have hc2 : ¬ (((b :: d :: t') ++ ')' :: '】' :: post).take 2 = [')', '】']) := by
        intro h
        rw [List.cons_append, List.cons_append, List.take_succ_cons, List.take_succ_cons,
          List.take_zero] at h
        injection h with h1 h2
        injection h2 with h3 _
        subst h1
        subst h3
        have : (true : Bool) = false := htail
        exact Bool.noConfusion this
      rw [if_neg hc2]
      have hsub := findCloseParen_label (b :: d :: t') (by simp)
        (fun c hc => hnl c (by simp at hc; rcases hc with h | h | h <;> simp [h]))
        htail post
      rw [hsub]

theorem parseFootMark_shape (dn rest2 : List Char) (hdn : dn ≠ [])
    (hdig : ∀ c ∈ dn, isDigitChar c = true) :
    parseFootMark (dn ++ '†' :: '(' :: rest2) =
      (match findCloseParen rest2 with
       | some (label, after) => some (dn, label, after)
       | none => none) := by
  simp only [parseFootMark]
  rw [takeWhile_all_append isDigitChar dn '†' ('(' :: rest2) hdig (by decide),
    dropWhile_all_append isDigitChar dn '†' ('(' :: rest2) hdig (by decide), if_neg hdn]
  rfl

theorem footnoteScanMd_gap (find : List Char → Option Citation) :
    ∀ (pre : List Char), '【' ∉ pre → ∀ (fuel : Nat) (s : List Char),
      footnoteScanMd find (pre.length + fuel) (pre ++ s) =
        (pre ++ (footnoteScanMd find fuel s).1, (footnoteScanMd find fuel s).2)
  | [], _, fuel, s => by simp
  | c :: pre, h, fuel, s => by
    have hc : c ≠ '【' := fun hEq => h (by simp [hEq])
    have ih := footnoteScanMd_gap find pre (fun hm => h (List.mem_cons_of_mem c hm)) fuel s
    have harith : (c :: pre).length + fuel = (pre.length + fuel) + 1 := by
      simp [List.length_cons]
      omega
    rw [List.cons_append, harith]
    simp only [footnoteScanMd]
    rw [if_neg hc, ih]
    simp

theorem footnoteScanMd_tail (find : List Char → Option Citation) :
    ∀ (s : List Char), '【' ∉ s → ∀ (fuel : Nat), s.length ≤ fuel →
      footnoteScanMd find fuel s = (s, [])
  | _, _, 0, _ => rfl
  | [], _, _ + 1, _ => rfl
  | c :: rest, h, fuel + 1, hle => by
    have hc : c ≠ '【' := fun hEq => h (by simp [hEq])
    simp only [footnoteScanMd]
    rw [if_neg hc, footnoteScanMd_tail find rest (fun hm => h (List.mem_cons_of_mem c hm))
      fuel (by simp at hle; omega)]

theorem footnoteScanMd_mark (find : List Char → Option Citation) (fuel : Nat)
    (rest digits label after : List Char) (cite : Citation)
    (hp : parseFootMark rest = some (digits, label, after))
    (hf : find digits = some cite) :
    footnoteScanMd find (fuel + 1) ('【' :: rest) =
      ('[' :: '^' :: (digits ++ ']' :: (footnoteScanMd find fuel after).1),
        cite :: (footnoteScanMd find fuel after).2) := by
  simp only [footnoteScanMd]
  simp only [if_true, hp, hf]

theorem footnoteScanMd_nomark (find : List Char → Option Citation) (fuel : Nat)
    (rest digits label after : List Char)
    (hp : parseFootMark rest = some (digits, label, after))
    (hf : find digits = none) :
    footnoteScanMd find (fuel + 1) ('【' :: rest) =
      (footMarkChars digits label ++ (footnoteScanMd find fuel after).1,
        (footnoteScanMd find fuel after).2) := by
  simp only [footnoteScanMd]
  simp only [if_true, hp, hf]

theorem footnoteScanHtml_gap (find : List Char → Option Citation) :
    ∀ (pre : List Char), '【' ∉ pre → ∀ (fuel : Nat) (s : List Char),
      footnoteScanHtml find (pre.length + fuel) (pre ++ s) =
        pre ++ footnoteScanHtml find fuel s
  | [], _, fuel, s => by simp
  | c :: pre, h, fuel, s => by
    have hc : c ≠ '【' := fun hEq => h (by simp [hEq])
    have ih := footnoteScanHtml_gap find pre (fun hm => h (List.mem_cons_of_mem c hm)) fuel s
    have harith : (c :: pre).length + fuel = (pre.length + fuel) + 1 := by
      simp [List.length_cons]
      omega
    rw [List.cons_append, harith]
    simp only [footnoteScanHtml]
    rw [if_neg hc, ih]
    simp

theorem footnoteScanHtml_tail (find : List Char → Option Citation) :
    ∀ (s : List Char), '【' ∉ s → ∀ (fuel : Nat), s.length ≤ fuel →
      footnoteScanHtml find fuel s = s
  | _, _, 0, _ => rfl
  | [], _, _ + 1, _ => rfl
  | c :: rest, h, fuel + 1, hle => by
    have hc : c ≠ '【' := fun hEq => h (by simp [hEq])
    simp only [footnoteScanHtml]
    rw [if_neg hc, footnoteScanHtml_tail find rest (fun hm => h (List.mem_cons_of_mem c hm))
      fuel (by simp at hle; omega)]

theorem footnoteScanHtml_mark (find : List Char → Option Citation) (fuel : Nat)
    (rest digits label after : List Char) (cite : Citation)
    (hp : parseFootMark rest = some (digits, label, after))
    (hf : find digits = some cite) :
    footnoteScanHtml find (fuel + 1) ('【' :: rest) = footnoteScanHtml find fuel after := by
  simp only [footnoteScanHtml]
  simp only [if_true, hp, hf]

theorem footnoteScanHtml_nomark (find : List Char → Option Citation) (fuel : Nat)
    (rest digits label after : List Char)
    (hp : parseFootMark rest = some (digits, label, after))
    (hf : find digits = none) :
    footnoteScanHtml find (fuel + 1) ('【' :: rest) =
      footMarkChars digits label ++ footnoteScanHtml find fuel after := by
  simp only [footnoteScanHtml]
  simp only [if_true, hp, hf]

theorem intercalate_singleton (s x : String) : String.intercalate s [x] = x := rfl

theorem footScanMd_matched (metadata : MsgMetadata) (n : Nat)
    (pre label post : List Char) (cite : Citation)
    (hpre : '【' ∉ pre) (hpost : '【' ∉ post)
    (hlabne : label ≠ []) (hlabnl : ∀ c ∈ label, c ≠ '\n')
    (hlabcs : hasCloseSeq label = false)
    (hfind : jsFindCitation metadata (toString n).data = some cite) :
    footnoteScanMd (jsFindCitation metadata)
        ((pre ++ footMarkChars (toString n).data label ++ post).length + 1)
        (pre ++ footMarkChars (toString n).data label ++ post) =
      (pre ++ '[' :: '^' :: ((toString n).data ++ ']' :: post), [cite]) := by
  have hparse : parseFootMark
      ((toString n).data ++ '†' :: '(' :: (label ++ ')' :: '】' :: post)) =
      some ((toString n).data, label, post) := by
    rw [parseFootMark_shape _ _ (toString_nat_ne_nil n) (toString_nat_digits n),
      findCloseParen_label label hlabne hlabnl hlabcs post]
  rw [List.append_assoc, List.length_append, Nat.add_assoc,
    footnoteScanMd_gap (jsFindCitation metadata) pre hpre]
  simp only [footMarkChars, List.cons_append, List.append_assoc, List.nil_append]
  rw [footnoteScanMd_mark _ _ _ _ _ _ cite hparse hfind,
    footnoteScanMd_tail (jsFindCitation metadata) post hpost
      (('【' :: ((toString n).data ++ '†' :: '(' :: (label ++ ')' :: '】' :: post))).length)
      (by simp only [List.length_cons, List.length_append]; omega)]

theorem footScanMd_unmatched (metadata : MsgMetadata) (n : Nat)
    (pre label post : List Char)
    (hpre : '【' ∉ pre) (hpost : '【' ∉ post)
    (hlabne : label ≠ []) (hlabnl : ∀ c ∈ label, c ≠ '\n')
    (hlabcs : hasCloseSeq label = false)
    (hfind : jsFindCitation metadata (toString n).data = none) :
    footnoteScanMd (jsFindCitation metadata)
        ((pre ++ footMarkChars (toString n).data label ++ post).length + 1)
        (pre ++ footMarkChars (toString n).data label ++ post) =
      (pre ++ footMarkChars (toString n).data label ++ post, []) := by
  have hparse : parseFootMark
      ((toString n).data ++ '†' :: '(' :: (label ++ ')' :: '】' :: post)) =
      some ((toString n).data, label, post) := by
    rw [parseFootMark_shape _ _ (toString_nat_ne_nil n) (toString_nat_digits n),
      findCloseParen_label label hlabne hlabnl hlabcs post]
  rw [List.append_assoc, List.length_append, Nat.add_assoc,
    footnoteScanMd_gap (jsFindCitation metadata) pre hpre]
  simp only [footMarkChars, List.cons_append, List.append_assoc, List.nil_append]
  rw [footnoteScanMd_nomark _ _ _ _ _ _ hparse hfind,
    footnoteScanMd_tail (jsFindCitation metadata) post hpost
      (('【' :: ((toString n).data ++ '†' :: '(' :: (label ++ ')' :: '】' :: post))).length)
      (by simp only [List.length_cons, List.length_append]; omega)]
  simp [footMarkChars]

theorem footScanHtml_matched (metadata : MsgMetadata) (n : Nat)
    (pre label post : List Char) (cite : Citation)
    (hpre : '【' ∉ pre) (hpost : '【' ∉ post)
    (hlabne : label ≠ []) (hlabnl : ∀ c ∈ label, c ≠ '\n')
    (hlabcs : hasCloseSeq label = false)
    (hfind : jsFindCitation metadata (toString n).data = some cite) :
    footnoteScanHtml (jsFindCitation metadata)
        ((pre ++ footMarkChars (toString n).data label ++ post).length + 1)
        (pre ++ footMarkChars (toString n).data label ++ post) = pre ++ post := by
  have hparse : parseFootMark
      ((toString n).data ++ '†' :: '(' :: (label ++ ')' :: '】' :: post)) =
      some ((toString n).data, label, post) := by
    rw [parseFootMark_shape _ _ (toString_nat_ne_nil n) (toString_nat_digits n),
      findCloseParen_label label hlabne hlabnl hlabcs post]
  rw [List.append_assoc, List.length_append, Nat.add_assoc,
    footnoteScanHtml_gap (jsFindCitation metadata) pre hpre]
  simp only [footMarkChars, List.cons_append, List.append_assoc, List.nil_append]
  rw [footnoteScanHtml_mark _ _ _ _ _ _ cite hparse hfind,
    footnoteScanHtml_tail (jsFindCitation metadata) post hpost
      (('【' :: ((toString n).data ++ '†' :: '(' :: (label ++ ')' :: '】' :: post))).length)
      (by simp only [List.length_cons, List.length_append]; omega)]

theorem footScanHtml_unmatched (metadata : MsgMetadata) (n : Nat)
    (pre label post : List Char)
    (hpre : '【' ∉ pre) (hpost : '【' ∉ post)
    (hlabne : label ≠ []) (hlabnl : ∀ c ∈ label, c ≠ '\n')
    (hlabcs : hasCloseSeq label = false)
    (hfind : jsFindCitation metadata (toString n).data = none) :
    footnoteScanHtml (jsFindCitation metadata)
        ((pre ++ footMarkChars (toString n).data label ++ post).length + 1)
        (pre ++ footMarkChars (toString n).data label ++ post) =
      pre ++ footMarkChars (toString n).data label ++ post := by
  have hparse : parseFootMark
      ((toString n).data ++ '†' :: '(' :: (label ++ ')' :: '】' :: post)) =
      some ((toString n).data, label, post) := by
    rw [parseFootMark_shape _ _ (toString_nat_ne_nil n) (toString_nat_digits n),
      findCloseParen_label label hlabne hlabnl hlabcs post]
  rw [List.append_assoc, List.length_append, Nat.add_assoc,
    footnoteScanHtml_gap (jsFindCitation metadata) pre hpre]
  simp only [footMarkChars, List.cons_append, List.append_assoc, List.nil_append]
  rw [footnoteScanHtml_nomark _ _ _ _ _ _ hparse hfind,
    footnoteScanHtml_tail (jsFindCitation metadata) post hpost
      (('【' :: ((toString n).data ++ '†' :: '(' :: (label ++ ')' :: '】' :: post))).length)
      (by simp only [List.length_cons, List.length_append]; omega)]
  simp [footMarkChars]

theorem jsFindCitation_idx (metadata : MsgMetadata) (n : Nat) (cite : Citation)
    (hfind : jsFindCitation metadata (toString n).data = some cite) :
    cite.citedMessageIdx = some n := by
  simp only [jsFindCitation] at hfind
  rcases hmc : metadata.citations with _ | cites
  · simp only [hmc] at hfind
    exact Option.noConfusion hfind
  · simp only [hmc] at hfind
    have hp := List.find?_some hfind
    have h2 := of_decide_eq_true hp
    rwa [digitsToNat_toString] at h2

/-- C7: an assistant-text citation marker 【n†(Label)】 with a matching
citation becomes `[^n]` in place plus a trailing `[^n]: <title>` line in
the Markdown output, and is deleted without artifact in the HTML output;
with no matching citation both outputs keep the marker verbatim (the
Markdown renderer appends its unconditional blank footnote section). -/
theorem transformFootNotes_marker (metadata : MsgMetadata) (n : Nat)
    (pre label post : List Char)
    (hpre : '【' ∉ pre) (hpost : '【' ∉ post)
    (hlabne : label ≠ []) (hlabnl : ∀ c ∈ label, c ≠ '\n')
    (hlabcs : hasCloseSeq label = false) :
    (∀ cite, jsFindCitation metadata (toString n).data = some cite →
      transformFootNotesMd
          (String.mk (pre ++ footMarkChars (toString n).data label ++ post)) metadata =
        String.mk (pre ++ '[' :: '^' :: ((toString n).data ++ ']' :: post)) ++ "\n\n" ++
          ("[^" ++ toString n ++ "]: " ++ cite.title.getD "No title") ∧
      transformFootNotesHtml
          (String.mk (pre ++ footMarkChars (toString n).data label ++ post)) metadata =
        String.mk (pre ++ post)) ∧
    (jsFindCitation metadata (toString n).data = none →
      transformFootNotesMd
          (String.mk (pre ++ footMarkChars (toString n).data label ++ post)) metadata =
        String.mk (pre ++ footMarkChars (toString n).data label ++ post) ++ "\n\n" ∧
      transformFootNotesHtml
          (String.mk (pre ++ footMarkChars (toString n).data label ++ post)) metadata =
        String.mk (pre ++ footMarkChars (toString n).data label ++ post)) := by
  constructor
  · intro cite hfind
    have hidx := jsFindCitation_idx metadata n cite hfind
    constructor
    · simp only [transformFootNotesMd]
      rw [footScanMd_matched metadata n pre label post cite hpre hpost hlabne hlabnl
        hlabcs hfind]
      simp only [List.map_cons, List.map_nil, intercalate_singleton, hidx,
        Option.getD_some]
    · simp only [transformFootNotesHtml]
      rw [footScanHtml_matched metadata n pre label post cite hpre hpost hlabne hlabnl
        hlabcs hfind]
  · intro hfind
    constructor
    · simp only [transformFootNotesMd]
      rw [footScanMd_unmatched metadata n pre label post hpre hpost hlabne hlabnl
        hlabcs hfind]
      simp only [List.map_nil]
      rw [show String.intercalate "\n" [] = "" from rfl]
      rw [String.append_empty]
    · simp only [transformFootNotesHtml]
      rw [footScanHtml_unmatched metadata n pre label post hpre hpost hlabne hlabnl
        hlabcs hfind]

/-- Witness for C7 at the spec's example: `Evidence 【3†(SourceName)】 end`
with a matching citation of index 3 and title "SourceName". -/
theorem transformFootNotes_marker_witness :
    transformFootNotesMd
        (String.mk ("Evidence ".data ++ footMarkChars (toString 3).data "SourceName".data ++
          " end".data)) metaSourceName =
      String.mk ("Evidence ".data ++ '[' :: '^' :: ((toString 3).data ++ ']' :: " end".data)) ++
        "\n\n" ++ ("[^" ++ toString 3 ++ "]: " ++ citeSourceName.title.getD "No title") ∧
    transformFootNotesHtml
        (String.mk ("Evidence ".data ++ footMarkChars (toString 3).data "SourceName".data ++
          " end".data)) metaSourceName =
      String.mk ("Evidence ".data ++ " end".data) :=
  (transformFootNotes_marker metaSourceName 3 "Evidence ".data "SourceName".data " end".data
    (by decide) (by decide) (by decide) (by decide) (by decide)).1 citeSourceName (by decide)

-- ===========================================================================
-- Claim C5: sentinel protection preserves math spans (confirmed)
-- ===========================================================================

theorem splitOnChar_ne_nil (sep : Char) : ∀ (l : List Char), splitOnChar sep l ≠ []
  | [] => by simp [splitOnChar]
  | c :: rest => by
    simp only [splitOnChar]
    rcases h : splitOnChar sep rest with _ | ⟨h1, t1⟩
    · simp
    · by_cases hc : c = sep <;> simp [hc]

theorem splitOnChar_not_mem (sep : Char) : ∀ (l : List Char), sep ∉ l →
    splitOnChar sep l = [l]
  | [], _ => rfl
  | c :: rest, h => by
    have hc : c ≠ sep := fun hEq => h (by simp [hEq])
    simp only [splitOnChar]
    rw [splitOnChar_not_mem sep rest (fun hm => h (List.mem_cons_of_mem c hm))]
    simp [hc]

theorem splitOnChar_append_sep (sep : Char) : ∀ (l rest : List Char), sep ∉ l →
    splitOnChar sep (l ++ sep :: rest) = l :: splitOnChar sep rest
  | [], rest, _ => by
    simp only [List.nil_append, splitOnChar]
    rcases h : splitOnChar sep rest with _ | ⟨h1, t1⟩
    · exact absurd h (splitOnChar_ne_nil sep rest)
    · simp
  | c :: l, rest, h => by
    have hc : c ≠ sep := fun hEq => h (by simp [hEq])
    simp only [List.cons_append, List.append_eq, splitOnChar]
    rw [splitOnChar_append_sep sep l rest (fun hm => h (List.mem_cons_of_mem c hm))]
    simp [hc]

theorem noSentinelChar_not_mem (g : String) (h : noSentinelChar g = true) :
    '╬' ∉ g.data := by
  simp only [noSentinelChar, List.all_eq_true] at h
  intro hmem
  have := h '╬' hmem
  simp at this

theorem toString_nat_ne_empty (n : Nat) : toString n ≠ "" :=
  fun h => toString_nat_ne_nil n (by rw [h])

theorem box_not_mem_toString (n : Nat) : '╬' ∉ (toString n).data := by
  intro hmem
  exact absurd rfl (isDigitChar_ne_box (toString_nat_digits n '╬' hmem))

theorem restore_chain (ms : List String) : ∀ (gaps : List String) (i : Nat),
    gaps ≠ [] → (∀ g ∈ gaps, noSentinelChar g = true) →
    restoreSentinelsStr ms (chainStr gaps i) = chainFill ms gaps i
  | [], _, hne, _ => absurd rfl hne
  | [g], i, _, hfree => by
    have hnm : '╬' ∉ g.data := noSentinelChar_not_mem g (hfree g (by simp))
    simp only [restoreSentinelsStr, chainStr, chainFill]
    rw [splitOnChar_not_mem '╬' g.data hnm]
    rfl
  | g :: g2 :: gs, i, _, hfree => by
    have hnm : '╬' ∉ g.data := noSentinelChar_not_mem g (hfree g (by simp))
    have ih := restore_chain ms (g2 :: gs) (i + 1) (by simp)
      (fun x hx => hfree x (List.mem_cons_of_mem g hx))
    simp only [restoreSentinelsStr] at ih
    simp only [restoreSentinelsStr, chainStr, chainFill]
    have hdata : (g ++ sentinelTok i ++ chainStr (g2 :: gs) (i + 1)).data =
        g.data ++ '╬' :: ((toString i).data ++ '╬' :: (chainStr (g2 :: gs) (i + 1)).data) := by
      simp [String.data_append, sentinelTok]
    rw [hdata, splitOnChar_append_sep '╬' g.data _ hnm,
      splitOnChar_append_sep '╬' (toString i).data _ (box_not_mem_toString i)]
    simp only [List.map_cons]
    have hcond : isDigitsNonempty (String.mk (toString i).data) = true ∧
        (List.map String.mk (splitOnChar '╬' (chainStr (g2 :: gs) (i + 1)).data)) ≠ [] := by
      constructor
      · simp only [isDigitsNonempty, Bool.and_eq_true, List.all_eq_true]
        constructor
        · simpa using toString_nat_ne_empty i
        · exact fun c hc => toString_nat_digits i c hc
      · intro hmap
        exact splitOnChar_ne_nil '╬' _ (List.map_eq_nil_iff.mp hmap)
    simp only [restoreSentinels, if_pos hcond]
    rw [ih]
    have hq : digitsToNat (String.mk (toString i).data).data = i := digitsToNat_toString i
    rw [hq]

theorem chainFill_contains (ms : List String) : ∀ (gaps : List String) (i k : Nat),
    i ≤ k → k + 1 < i + gaps.length →
    (ms.getD k "undefined").data <:+: (chainFill ms gaps i).data
  | [], i, k, hik, hlt => by simp at hlt; omega
  | [g], i, k, hik, hlt => by simp at hlt; omega
  | g :: g2 :: gs, i, k, hik, hlt => by
    simp only [chainFill]
    by_cases hk : k = i
    · subst hk
      rw [String.data_append, String.data_append]
      exact ⟨g.data, (chainFill ms (g2 :: gs) (k + 1)).data, by simp⟩
    · have hik2 : i + 1 ≤ k := by omega
      have ih := chainFill_contains ms (g2 :: gs) (i + 1) k hik2
        (by simp at hlt ⊢; omega)
      rw [String.data_append, String.data_append]
      exact ih.trans (List.suffix_append _ _).isInfix

/-- C5: with no fenced code block and a nonempty list of matched math
spans, and a round trip that preserves the sentinel chain structure
(spec-modelled), the literal character content of every matched span
occurs unchanged in the step's output, for both renderers. -/
theorem mathStep_preserves_spans (rt : String → String) (input : String) :
    (strContainsB (normalizeMathDelims input) "```" = false →
      (reScan mdLatexRe (normalizeMathDelims input)).2 ≠ [] →
      sentinelSafe (reScan mdLatexRe (normalizeMathDelims input)).2
        (rt (chainStr (reScan mdLatexRe (normalizeMathDelims input)).1 0)) →
      ∀ m ∈ (reScan mdLatexRe (normalizeMathDelims input)).2,
        strContains (mdMathStep rt input) m) ∧
    (strContainsB input "```" = false →
      (reScan htmlLatexRe input).2 ≠ [] →
      sentinelSafe (reScan htmlLatexRe input).2
        (rt (normalizeMathDelims (chainStr (reScan htmlLatexRe input).1 0))) →
      ∀ m ∈ (reScan htmlLatexRe input).2,
        strContains (htmlMathStep rt input) m) := by
  constructor
  · intro hcb hms hsafe m hmem
    obtain ⟨gaps, hlen, hfree, heq⟩ := hsafe
    have hgne : gaps ≠ [] := by intro h; subst h; simp at hlen
    simp only [mdMathStep]
    rw [if_pos ⟨hcb, hms⟩, if_pos ⟨hcb, hms⟩, heq,
      restore_chain (reScan mdLatexRe (normalizeMathDelims input)).2 gaps 0 hgne hfree]
    obtain ⟨k, hk, hkm⟩ := List.mem_iff_getElem.mp hmem
    have hgd : (reScan mdLatexRe (normalizeMathDelims input)).2.getD k "undefined" = m := by
      rw [List.getD_eq_getElem?_getD, List.getElem?_eq_getElem hk]
      simpa using hkm
    rw [← hgd]
    exact chainFill_contains (reScan mdLatexRe (normalizeMathDelims input)).2 gaps 0 k
      (Nat.zero_le k) (by omega)
  · intro hcb hms hsafe m hmem
    obtain ⟨gaps, hlen, hfree, heq⟩ := hsafe
    have hgne : gaps ≠ [] := by intro h; subst h; simp at hlen
    simp only [htmlMathStep]
    rw [if_pos ⟨hcb, hms⟩, if_pos ⟨hcb, hms⟩, heq,
      restore_chain (reScan htmlLatexRe input).2 gaps 0 hgne hfree]
    obtain ⟨k, hk, hkm⟩ := List.mem_iff_getElem.mp hmem
    have hgd : (reScan htmlLatexRe input).2.getD k "undefined" = m := by
      rw [List.getD_eq_getElem?_getD, List.getElem?_eq_getElem hk]
      simpa using hkm
    rw [← hgd]
    exact chainFill_contains (reScan htmlLatexRe input).2 gaps 0 k
      (Nat.zero_le k) (by omega)

/-- Witness for C5 at the input `a $x$ b` with the identity round trip:
the matched span ` $x$ ` survives both steps literally. -/
theorem mathStep_preserves_spans_witness :
    strContains (mdMathStep (fun s => s) "a $x$ b") " $x$ " ∧
    strContains (htmlMathStep (fun s => s) "a $x$ b") " $x$ " :=
  ⟨(mathStep_preserves_spans (fun s => s) "a $x$ b").1 (by decide) (by decide)
      ⟨["a", "b"], by decide, by decide, by decide⟩ " $x$ " (by decide),
    (mathStep_preserves_spans (fun s => s) "a $x$ b").2 (by decide) (by decide)
      ⟨["a", "b"], by decide, by decide, by decide⟩ " $x$ " (by decide)⟩
